import Mathlib

/-!
# DomExtractor (src/domextractor.js)

A shallow embedding of the extraction engine: JavaScript values, the
transformation registry, the descriptor parser, chain application and
`extract` with its per-call selector memo.

Strings are sequences of characters.  A character of the Basic Multilingual
Plane is one UTF-16 code unit; the two operations that count code units,
`slice` on a string and `split` with the empty separator, are computed on text
of that plane and left to the host on any other text.  Everything the program
obtains from its environment rather than computes itself -- the DOM,
floating-point arithmetic, the regular-expression engine, the textual form of
host objects -- is a field of `Host`.
-/

namespace DomExtractor

/-! ## Values -/

/-- Exceptions: a value thrown by the program itself (`throw '...'`), an error
raised by the language runtime, or one raised by the host or by user code. -/
inductive Err where
  | thrown (message : String)
  | typeError (what : String)
  | syntaxError (what : String)
  | host (what : String)
  deriving DecidableEq, Repr

/-- JavaScript numbers: NaN, the infinities, negative zero, and the finite
doubles other than negative zero, each given by its exact rational value. -/
inductive Num where
  | nan
  | posInf
  | negInf
  | negZero
  | fin (q : Rat)
  deriving DecidableEq, Repr

/-- Ordinary objects that appear as values but are never looked into: the
extractor instance (`this`), a `String` wrapper object, `Object.prototype`. -/
inductive Obj where
  | extractor
  | stringObject (s : String)
  | objectPrototype
  deriving DecidableEq, Repr

mutual
/-- JavaScript values over a host type `Node` of document nodes. -/
inductive Val (Node : Type) : Type where
  | undefined
  | null
  | bool (b : Bool)
  | num (n : Num)
  | str (s : String)
  | arr (xs : List (Val Node))
  | node (n : Node)
  | nodeList (ns : List Node)
  | regexp (source : String) (flags : String)
  | func (f : Fn Node)
  | obj (o : Obj)
/-- Function values the program can produce: the closures returned by the
parameterized registry entries, each with the variables it captured, and the
two native accessor functions of `Object.prototype.__proto__`. -/
inductive Fn (Node : Type) : Type where
  | querySelectorAll (selector : Val Node)
  | querySelector (selector : Val Node)
  | getAttribute (attr : Val Node)
  | multiplyBy (factor : Val Node)
  | split (delimeter : Val Node) (limit : Option Num)
  | replace (pattern : Val Node) (replacement : Val Node)
  | match_ (pattern : Val Node)
  | getIndex (index : Num)
  | slice (start : Num) (stop : Option Num)
  | protoGetter
  | protoSetter
end

/-- Type test `typeof arg === 'string'`. -/
def isString {Node : Type} : Val Node → Bool
  | .str _ => true
  | _ => false

/-- Type test `typeof arg === 'number'`. -/
def isNumber {Node : Type} : Val Node → Bool
  | .num _ => true
  | _ => false

/-- Type test `typeof arg === 'function'`. -/
def isFunction {Node : Type} : Val Node → Bool
  | .func _ => true
  | _ => false

/-- Type test `Object.prototype.toString.call(arg) === '[object Array]'`. -/
def isArray {Node : Type} : Val Node → Bool
  | .arr _ => true
  | _ => false

/-- ToBoolean: the falsy values are undefined, null, false, NaN, both zeros
and the empty string. -/
def truthy {Node : Type} : Val Node → Bool
  | .undefined => false
  | .null => false
  | .bool b => b
  | .num .nan => false
  | .num .negZero => false
  | .num (.fin q) => decide (q ≠ 0)
  | .num _ => true
  | .str s => decide (s ≠ "")
  | _ => true

/-! ## String primitives -/

/-- The characters removed by `String.prototype.trim` and skipped by
`parseInt`: WhiteSpace and LineTerminator code points. -/
def isWhiteSpace (c : Char) : Bool :=
  let n := c.toNat
  n = 0x09 || n = 0x0A || n = 0x0B || n = 0x0C || n = 0x0D || n = 0x20 || n = 0xA0
    || n = 0x1680 || (0x2000 ≤ n && n ≤ 0x200A) || n = 0x2028 || n = 0x2029
    || n = 0x202F || n = 0x205F || n = 0x3000 || n = 0xFEFF

/-- Drop leading white space. -/
def trimStart (cs : List Char) : List Char :=
  cs.dropWhile isWhiteSpace

/-- Model of `String.prototype.trim`. -/
def jsTrim (s : String) : String :=
  String.mk (trimStart (trimStart s.data).reverse).reverse

/-- Does `p` occur at the start of `cs`? -/
def startsWith (p : List Char) : List Char → Bool
  | cs => p.isPrefixOf cs

/-- Pieces of `cs` between the occurrences of the non-empty separator
`sep`, scanning left to right; `cur` is the piece being read (reversed) and
`skip` counts the characters of a separator just found still to be passed. -/
def splitOnAux (sep : List Char) : List Char → List Char → Nat → List (List Char)
  | [], cur, _ => [cur.reverse]
  | _ :: cs, cur, skip + 1 => splitOnAux sep cs cur skip
  | c :: cs, cur, 0 =>
    if startsWith sep (c :: cs) then cur.reverse :: splitOnAux sep cs [] (sep.length - 1)
    else splitOnAux sep cs (c :: cur) 0

/-- All pieces of `String.prototype.split` for a string separator, before
the limit is applied.  With the empty separator these are the single
characters, which are the code units the code returns only for text of the
Basic Multilingual Plane: `jsSplit` uses this function on such text only. -/
def splitAll (sep : List Char) (cs : List Char) : List (List Char) :=
  if sep = [] then cs.map (fun c => [c]) else splitOnAux sep cs [] 0

/-- Model of `String.prototype.indexOf(p) > -1`. -/
def containsStr (p : List Char) : List Char → Bool
  | [] => p.isEmpty
  | c :: cs => startsWith p (c :: cs) || containsStr p cs

/-- Round a non-negative integer to the nearest double (ties to even);
`none` when the result overflows to Infinity. -/
def roundToDouble (n : Nat) : Option Nat :=
  if n < 2 ^ 53 then some n
  else
    let sh := Nat.log2 n + 1 - 53
    let q := n / 2 ^ sh
    let r := n % 2 ^ sh
    let half := 2 ^ (sh - 1)
    let q1 := if half < r ∨ (r = half ∧ q % 2 = 1) then q + 1 else q
    if q1 * 2 ^ sh < 2 ^ 1024 then some (q1 * 2 ^ sh) else none

/-- Value of a string of decimal digits. -/
def digitsValue (ds : List Char) : Nat :=
  ds.foldl (fun acc d => acc * 10 + (d.toNat - 48)) 0

/-- Model of `parseInt(string, 10)` on a string: leading white space is
skipped, an optional sign is read, then the longest run of decimal digits;
NaN when there is none.  (For more than 20 significant digits the language
lets an implementation approximate; the nearest double is taken here.) -/
def parseInt10 (s : String) : Num :=
  let t := trimStart s.data
  let (neg, u) := match t with
    | '-' :: u => (true, u)
    | '+' :: u => (false, u)
    | u => (false, u)
  let ds := u.takeWhile Char.isDigit
  if ds = [] then .nan
  else match roundToDouble (digitsValue ds) with
    | none => if neg then .negInf else .posInf
    | some 0 => if neg then .negZero else .fin 0
    | some v => if neg then .fin (-(v : Int)) else .fin (v : Int)

/-! ## The host environment -/

/-- What an assignment to an object finds for a key on the prototype chain
of a node it inherits from: nothing or a writable data property (the assignment
then defines an own property), an accessor (its setter or, later, its getter
runs with the wrong receiver and raises), or a read-only data property with
its value, such as `ELEMENT_NODE` (the assignment is then silently ignored). -/
inductive Inherited (Node : Type) : Type where
  | absent
  | accessor
  | readOnly (value : Val Node)

/-- Characters of the Basic Multilingual Plane, which are one UTF-16 code
unit each. -/
def isBMP (c : Char) : Bool :=
  decide (c.toNat < 0x10000)

/-- What the program takes from its environment.  The DOM: the two query
methods (which may throw on a malformed selector), the content properties of a
node, its attribute reader (absent on nodes that are not elements), and what a
property name denotes on a node's prototype chain.  Strings: slicing, and
splitting into single code units, of text that has characters outside the
Basic Multilingual Plane, where code units and characters differ.  Numbers:
`parseFloat`, `Math.round`, `factor * number` and the textual form of a number.
Objects: the textual form of nodes, node lists, functions and plain objects.
Regular expressions: whether `new RegExp(source, flags)` is accepted, and
replacing, matching and splitting with one.  `firstChildNodeValue html` is what
a detached `div` shows after `div.innerHTML = html`: no first child, or the
first child's `nodeValue` (null for an element). -/
structure Host (Node : Type) where
  querySelector : Node → String → Except Err (Option Node)
  querySelectorAll : Node → String → Except Err (List Node)
  innerHTML : Node → Val Node
  innerText : Node → Val Node
  textContent : Node → Val Node
  value : Node → Val Node
  hasGetAttribute : Node → Bool
  getAttribute : Node → String → Option String
  nodeInherited : Node → String → Inherited Node
  sliceCodeUnits : String → Num → Option Num → String
  splitCodeUnits : String → Nat → Val Node
  parseFloat : String → Num
  mathRound : Num → Num
  multiply : Val Node → Num → Num
  numberToString : Num → String
  objectToString : Val Node → String
  regExpOk : String → String → Bool
  replaceRegExp : String → String → String → Val Node → Except Err String
  replaceCallback : String → String → Fn Node → Except Err String
  matchRegExp : String → String → String → Val Node
  splitRegExp : String → String → String → Option Num → Val Node
  firstChildNodeValue : String → Option (Option String)

section
variable {Node : Type}

mutual
/-- ToString.  Arrays join their elements with a comma; numbers and
objects are rendered by the host. -/
def toStr (H : Host Node) : Val Node → String
  | .undefined => "undefined"
  | .null => "null"
  | .bool true => "true"
  | .bool false => "false"
  | .num n => H.numberToString n
  | .str s => s
  | .arr xs => ",".intercalate (toStrElements H xs)
  | .node n => H.objectToString (.node n)
  | .nodeList ns => H.objectToString (.nodeList ns)
  | .regexp source flags => H.objectToString (.regexp source flags)
  | .func f => H.objectToString (.func f)
  | .obj o => H.objectToString (.obj o)
/-- The element strings of `Array.prototype.join`: undefined and null give
the empty string. -/
def toStrElements (H : Host Node) : List (Val Node) → List String
  | [] => []
  | .undefined :: xs => "" :: toStrElements H xs
  | .null :: xs => "" :: toStrElements H xs
  | x :: xs => toStr H x :: toStrElements H xs
end

/-! ## Built-in operations on strings and arrays -/

/-- Truncate a rational towards zero. -/
def truncate (q : Rat) : Int :=
  Int.tdiv q.num q.den

/-- ToUint32, applied to the limit of `split`. -/
def toUint32 : Num → Nat
  | .fin q => (truncate q % 2 ^ 32).toNat
  | _ => 0

/-- Model of `text.split(separator, limit)`: no limit means 2^32 - 1; a
limit of 0 gives the empty array; an undefined separator gives the whole
text; otherwise the first `limit` pieces.  The empty separator cuts the text
into UTF-16 code units: these are its characters when the text lies in the
Basic Multilingual Plane, and the host answers for any other text. -/
def jsSplit (H : Host Node) (text : String) (separator : Val Node) (limit : Option Num) :
    Val Node :=
  match separator with
  | .regexp source flags => H.splitRegExp source flags text limit
  | _ =>
    let lim := match limit with
      | none => 2 ^ 32 - 1
      | some n => toUint32 n
    if lim = 0 then .arr []
    else match separator with
      | .undefined => .arr [.str text]
      | sep =>
        if (toStr H sep).data = [] ∧ text.data.all isBMP = false then H.splitCodeUnits text lim
        else .arr (((splitAll (toStr H sep).data text.data).take lim).map
          fun piece => .str (String.mk piece))

/-- First occurrence of `p` in a text: the part before it and the part
after it. -/
def findFirst (p : List Char) : List Char → List Char → Option (List Char × List Char)
  | [], before => if p.isEmpty then some (before.reverse, []) else none
  | c :: cs, before =>
    if startsWith p (c :: cs) then some (before.reverse, (c :: cs).drop p.length)
    else findFirst p cs (c :: before)

/-- GetSubstitution for a match without capture groups: `$$` is a dollar
sign, `$&` the matched text, dollar-backtick the text before the match and
dollar-apostrophe the text after it; everything else is literal. -/
def getSubstitution (matched before after : List Char) : List Char → List Char
  | [] => []
  | [c] => [c]
  | c :: d :: rest =>
    if c = '$' ∧ d = '$' then '$' :: getSubstitution matched before after rest
    else if c = '$' ∧ d = '&' then matched ++ getSubstitution matched before after rest
    else if c = '$' ∧ d = Char.ofNat 96 then before ++ getSubstitution matched before after rest
    else if c = '$' ∧ d = Char.ofNat 39 then after ++ getSubstitution matched before after rest
    else c :: getSubstitution matched before after (d :: rest)

/-- Model of `text.replace(pattern, replacement)`: a regular expression is
handled by the host; any other pattern is a literal string whose first
occurrence is replaced. -/
def jsReplace (H : Host Node) (text : String) (pattern replacement : Val Node) :
    Except Err (Val Node) :=
  match pattern with
  | .regexp source flags => (H.replaceRegExp source flags text replacement).map .str
  | _ =>
    let p := toStr H pattern
    match replacement with
    | .func f => (H.replaceCallback text p f).map .str
    | _ =>
      match findFirst p.data text.data [] with
      | none => .ok (.str text)
      | some (before, after) =>
        .ok (.str (String.mk
          (before ++ getSubstitution p.data before after (toStr H replacement).data ++ after)))

/-- Model of `text.match(pattern)`: a pattern that is not a regular
expression is compiled as the source of one, without flags. -/
def jsMatch (H : Host Node) (text : String) (pattern : Val Node) : Except Err (Val Node) :=
  match pattern with
  | .regexp source flags => .ok (H.matchRegExp source flags text)
  | .undefined =>
    if H.regExpOk "" "" then .ok (H.matchRegExp "" "" text) else .error (.syntaxError "")
  | p =>
    if H.regExpOk (toStr H p) "" then .ok (H.matchRegExp (toStr H p) "" text)
    else .error (.syntaxError (toStr H p))

/-- Relative index of `slice`: NaN is 0, a negative index counts from the
end, and the result is clamped to the length. -/
def relativeIndex (len : Nat) : Num → Nat
  | .nan => 0
  | .negZero => 0
  | .posInf => len
  | .negInf => 0
  | .fin q =>
    if truncate q < 0 then ((len : Int) + truncate q).toNat else min (truncate q).toNat len

/-- Model of `Array.prototype.slice`, and of `String.prototype.slice` on a
list of code units. -/
def jsSlice {α : Type} (xs : List α) (start : Num) (stop : Option Num) : List α :=
  let k := relativeIndex xs.length start
  let final := match stop with
    | none => xs.length
    | some e => relativeIndex xs.length e
  (xs.drop k).take (final - k)

/-- Model of `String.prototype.slice`, which counts UTF-16 code units: the
characters of a text of the Basic Multilingual Plane are its code units; the
host answers for any other text. -/
def sliceString (H : Host Node) (s : String) (start : Num) (stop : Option Num) : String :=
  if s.data.all isBMP then String.mk (jsSlice s.data start stop)
  else H.sliceCodeUnits s start stop

/-- Comparison `length > index`. -/
def lengthGreater (len : Nat) : Num → Bool
  | .nan => false
  | .posInf => false
  | .negInf => true
  | .negZero => decide (0 < len)
  | .fin q => decide (q < (len : Rat))

/-- Property read `array[index]`: an element for an index naming one,
undefined for any other key. -/
def elementAt (xs : List (Val Node)) : Num → Val Node
  | .negZero => (xs[0]?).getD .undefined
  | .fin q => if q.den = 1 ∧ 0 ≤ q.num then (xs[q.num.toNat]?).getD .undefined else .undefined
  | _ => .undefined

/-! ## Regular-expression literals in string form -/

/-- One of the flag letters the recogniser accepts. -/
def isRegExpFlag (c : Char) : Bool :=
  c = 'g' || c = 'i' || c = 'm' || c = 'y'

/-- The test `/^\/(\S|\s)*\/[gimy]{0,4}$/`: a slash, any characters, a
slash, and at most four flag letters up to the end of the string. -/
def stringIsRegExp (s : String) : Bool :=
  match s.data with
  | '/' :: rest => (List.range 5).any fun k =>
      rest.reverse[k]? == some '/' && (rest.reverse.take k).all isRegExpFlag
  | _ => false

/-- Model of `new RegExp(source, flags)`: a repeated flag is a syntax error,
and so is whatever the host's engine rejects. -/
def newRegExp (H : Host Node) (source flags : String) : Except Err (Val Node) :=
  if flags.data.Nodup ∧ H.regExpOk source flags = true then .ok (.regexp source flags)
  else .error (.syntaxError ("/" ++ source ++ "/" ++ flags))

/-- The function `toRegExp`: split on every slash and use the second and
third pieces as source and flags. -/
def toRegExp (H : Host Node) (pattern : String) : Except Err (Val Node) :=
  let patternArray := (splitAll ['/'] pattern.data).map String.mk
  newRegExp H ((patternArray[1]?).getD "") ((patternArray[2]?).getD "")

/-! ## The transformation registry -/

/-- The receiver of a registry function: the registry object itself when an
entry is called as `this.transformations[name](item)`, the extractor instance
when it is called through `apply(this, args)`. -/
inductive ThisArg where
  | registry
  | extractor
  deriving DecidableEq, Repr

/-- Positional argument of a call; a missing argument is undefined. -/
def argAt (args : List (Val Node)) (i : Nat) : Val Node :=
  (args[i]?).getD .undefined

/-- Apply a function value of the program to one argument: the bodies of the
closures returned by the parameterized registry entries. -/
def callFn (H : Host Node) : Fn Node → Val Node → Except Err (Val Node)
  | .querySelectorAll selector, node =>
    -- node && node.querySelectorAll(selector)
    if truthy node then
      match node with
      | .node n => (H.querySelectorAll n (toStr H selector)).map .nodeList
      | _ => .error (.typeError "node.querySelectorAll is not a function")
    else .ok node
  | .querySelector selector, node =>
    -- node && node.querySelector(selector)
    if truthy node then
      match node with
      | .node n => (H.querySelector n (toStr H selector)).map fun r =>
          match r with
          | some m => .node m
          | none => .null
      | _ => .error (.typeError "node.querySelector is not a function")
    else .ok node
  | .getAttribute attr, node =>
    -- node && node.getAttribute && node.getAttribute(attr)
    if truthy node then
      match node with
      | .node n =>
        if H.hasGetAttribute n then
          match H.getAttribute n (toStr H attr) with
          | some s => .ok (.str s)
          | none => .ok .null
        else .ok .undefined
      | _ => .ok .undefined
    else .ok node
  | .multiplyBy factor, number =>
    -- isNumber(number) && factor * number
    match number with
    | .num n => .ok (.num (H.multiply factor n))
    | _ => .ok (.bool false)
  | .split delimeter limit, text =>
    -- isString(text) && text.split.apply(text, args)
    match text with
    | .str s => .ok (jsSplit H s delimeter limit)
    | _ => .ok (.bool false)
  | .replace pattern replacement, text =>
    -- isString(text) && text.replace(pattern, replacement)
    match text with
    | .str s => jsReplace H s pattern replacement
    | _ => .ok (.bool false)
  | .match_ pattern, text =>
    -- isString(text) && text.match(pattern)
    match text with
    | .str s => jsMatch H s pattern
    | _ => .ok (.bool false)
  | .getIndex index, array =>
    -- isArray(array) && array.length > index && array[index]
    match array with
    | .arr xs =>
      if lengthGreater xs.length index then .ok (elementAt xs index) else .ok (.bool false)
    | _ => .ok (.bool false)
  | .slice start stop, array =>
    -- array.slice.apply(array, args)
    match array with
    | .arr xs => .ok (.arr (jsSlice xs start stop))
    | .str s => .ok (.str (sliceString H s start stop))
    | .obj (.stringObject s) => .ok (.str (sliceString H s start stop))
    | .undefined => .error (.typeError "Cannot read property 'slice' of undefined")
    | .null => .error (.typeError "Cannot read property 'slice' of null")
    | _ => .error (.typeError "Cannot read property 'apply' of undefined")
  | .protoGetter, _ => .error (.typeError "Cannot convert undefined or null to object")
  | .protoSetter, _ => .error (.typeError "Cannot convert undefined or null to object")

/-- Call `transformation(item)` on an arbitrary value: only function values
can be called. -/
def call (H : Host Node) (transformation item : Val Node) : Except Err (Val Node) :=
  match transformation with
  | .func f => callFn H f item
  | _ => .error (.typeError "transformation is not a function")

namespace transformations

/-- Registry entry `querySelectorAll(selector)`. -/
def querySelectorAll (selector : Val Node) : Val Node :=
  .func (.querySelectorAll selector)

/-- Registry entry `querySelector(selector)`. -/
def querySelector (selector : Val Node) : Val Node :=
  .func (.querySelector selector)

/-- Registry entry `innerHTML`: `node && node.innerHTML`. -/
def innerHTML (H : Host Node) (node : Val Node) : Val Node :=
  if truthy node then
    match node with
    | .node n => H.innerHTML n
    | _ => .undefined
  else node

/-- Registry entry `innerText`: `node && (node.innerText || node.textContent)`. -/
def innerText (H : Host Node) (node : Val Node) : Val Node :=
  if truthy node then
    match node with
    | .node n => if truthy (H.innerText n) then H.innerText n else H.textContent n
    | _ => .undefined
  else node

/-- Registry entry `value`: `node && node.value`. -/
def value (H : Host Node) (node : Val Node) : Val Node :=
  if truthy node then
    match node with
    | .node n => H.value n
    | _ => .undefined
  else node

/-- Registry entry `getAttribute(attr)`. -/
def getAttribute (attr : Val Node) : Val Node :=
  .func (.getAttribute attr)

/-- Registry entry `toInt`: `isString(item) && parseInt(item, 10)`. -/
def toInt (item : Val Node) : Val Node :=
  match item with
  | .str s => .num (parseInt10 s)
  | _ => .bool false

/-- Registry entry `toFloat`: `isString(item) && parseFloat(item)`. -/
def toFloat (H : Host Node) (item : Val Node) : Val Node :=
  match item with
  | .str s => .num (H.parseFloat s)
  | _ => .bool false

/-- Registry entry `round`: `isNumber(item) && Math.round(item)`. -/
def round (H : Host Node) (item : Val Node) : Val Node :=
  match item with
  | .num n => .num (H.mathRound n)
  | _ => .bool false

/-- Registry entry `multiplyBy(factor)`. -/
def multiplyBy (factor : Val Node) : Val Node :=
  .func (.multiplyBy factor)

/-- Registry entry `htmlToText`: it reads `this.document`, which only the
extractor instance has; the markup is assigned to a detached `div` (null
becomes the empty string) and the first child's `nodeValue` is turned into a
string. -/
def htmlToText (H : Host Node) (this : ThisArg) (html : Val Node) : Except Err (Val Node) :=
  match this with
  | .registry => .error (.typeError "Cannot read property 'createElement' of undefined")
  | .extractor =>
    let markup := match html with
      | .null => ""
      | v => toStr H v
    match H.firstChildNodeValue markup with
    | none => .error (.typeError "Cannot read property 'nodeValue' of null")
    | some none => .ok (.str "null")
    | some (some text) => .ok (.str text)

/-- Registry entry `toString`: `item + String()`. -/
def toString (H : Host Node) (item : Val Node) : Val Node :=
  .str (toStr H item)

/-- Registry entry `trim`: `isString(text) && text.trim()`. -/
def trim (text : Val Node) : Val Node :=
  match text with
  | .str s => .str (jsTrim s)
  | _ => .bool false

/-- Registry entry `split(delimeter, limit)`: the limit, when given, is
read with `parseInt(limit, 10)`. -/
def split (H : Host Node) (delimeter limit : Val Node) : Val Node :=
  match limit with
  | .undefined => .func (.split delimeter none)
  | l => .func (.split delimeter (some (parseInt10 (toStr H l))))

/-- The pattern of `replace` and `match`:
`isString(pattern) && stringIsRegExp(pattern) ? toRegExp(pattern) : pattern`. -/
def patternOf (H : Host Node) (pattern : Val Node) : Except Err (Val Node) :=
  match pattern with
  | .str s => if stringIsRegExp s then toRegExp H s else .ok (.str s)
  | p => .ok p

/-- Registry entry `replace(pattern, replacement)`. -/
def replace (H : Host Node) (pattern replacement : Val Node) : Except Err (Val Node) :=
  (patternOf H pattern).map fun p => .func (.replace p replacement)

/-- Registry entry `match(pattern)`. -/
def match_ (H : Host Node) (pattern : Val Node) : Except Err (Val Node) :=
  (patternOf H pattern).map fun p => .func (.match_ p)

/-- Registry entry `getIndex(index)`: the index is read with
`parseInt(index, 10)`. -/
def getIndex (H : Host Node) (index : Val Node) : Val Node :=
  .func (.getIndex (parseInt10 (toStr H index)))

/-- Registry entry `slice(start, stop)`. -/
def slice (H : Host Node) (start stop : Val Node) : Val Node :=
  match stop with
  | .undefined => .func (.slice (parseInt10 (toStr H start)) none)
  | e => .func (.slice (parseInt10 (toStr H start)) (some (parseInt10 (toStr H e))))

end transformations

/-- The registry `transformations`: its own properties, each a function of
the receiver and the argument list. -/
def transformations (H : Host Node) :
    List (String × (ThisArg → List (Val Node) → Except Err (Val Node))) :=
  [ ("querySelectorAll", fun _ args => .ok (transformations.querySelectorAll (argAt args 0))),
    ("querySelector", fun _ args => .ok (transformations.querySelector (argAt args 0))),
    ("innerHTML", fun _ args => .ok (transformations.innerHTML H (argAt args 0))),
    ("innerText", fun _ args => .ok (transformations.innerText H (argAt args 0))),
    ("value", fun _ args => .ok (transformations.value H (argAt args 0))),
    ("getAttribute", fun _ args => .ok (transformations.getAttribute (argAt args 0))),
    ("toInt", fun _ args => .ok (transformations.toInt (argAt args 0))),
    ("toFloat", fun _ args => .ok (transformations.toFloat H (argAt args 0))),
    ("round", fun _ args => .ok (transformations.round H (argAt args 0))),
    ("multiplyBy", fun _ args => .ok (transformations.multiplyBy (argAt args 0))),
    ("htmlToText", fun this args => transformations.htmlToText H this (argAt args 0)),
    ("toString", fun _ args => .ok (transformations.toString H (argAt args 0))),
    ("trim", fun _ args => .ok (transformations.trim (argAt args 0))),
    ("split", fun _ args => .ok (transformations.split H (argAt args 0) (argAt args 1))),
    ("replace", fun _ args => transformations.replace H (argAt args 0) (argAt args 1)),
    ("match", fun _ args => transformations.match_ H (argAt args 0)),
    ("getIndex", fun _ args => .ok (transformations.getIndex H (argAt args 0))),
    ("slice", fun _ args => .ok (transformations.slice H (argAt args 0) (argAt args 1))) ]

/-! ## Descriptors, the descriptor parser and chain application -/

/-- An element of a transformation chain: a string, or a function supplied
directly.  A function is a plain function object: `source` is its text (what it
becomes when used as a property key) and it has no properties of its own. -/
inductive Descriptor (Node : Type) : Type where
  | str (s : String)
  | fn (source : String) (f : Val Node → Except Err (Val Node))

/-- The property key an element denotes in `hasOwnProperty(transformations[i])`
and `this.transformations[transformations[i]]`. -/
def Descriptor.key : Descriptor Node → String
  | .str s => s
  | .fn source _ => source

/-- What `this.transformations[name].apply(this, args)` does when `name` is
not an own property of the registry but a member of `Object.prototype`, which
the registry inherits; `none` when it is neither.  The receiver is the
extractor, whose own properties are `rootNode` and `document`. -/
def objectPrototypeMember (name : String) (args : List String) :
    Option (Except Err (Val Node)) :=
  let first := args.headD "undefined"
  if name = "constructor" then some (.ok (.obj (.stringObject first)))
  else if name = "hasOwnProperty" ∨ name = "propertyIsEnumerable" then
    some (.ok (.bool (first = "rootNode" ∨ first = "document")))
  else if name = "isPrototypeOf" then some (.ok (.bool false))
  else if name = "toLocaleString" then some (.ok (.str "[object Object]"))
  else if name = "valueOf" then some (.ok (.obj .extractor))
  else if name = "__defineGetter__" ∨ name = "__defineSetter__" then
    some (.error (.typeError "Object.prototype.__defineGetter__: Expecting function"))
  else if name = "__lookupGetter__" then
    some (.ok (if first = "__proto__" then .func .protoGetter else .undefined))
  else if name = "__lookupSetter__" then
    some (.ok (if first = "__proto__" then .func .protoSetter else .undefined))
  else if name = "__proto__" then
    some (.error (.typeError "this.transformations[transformationName].apply is not a function"))
  else none

/-- The method `parseTransformation`: the text before the first colon is
the name, the rest (colons kept) is cut at every comma into the arguments, and
the registry property of that name is applied to them. -/
def parseTransformation (H : Host Node) (transformationString : String) :
    Except Err (Val Node) :=
  let transformationArray := (splitAll [':'] transformationString.data).map String.mk
  let transformationName := transformationArray.headD ""
  let transformationArgs :=
    (splitAll [','] (":".intercalate transformationArray.tail).data).map String.mk
  match (transformations H).lookup transformationName with
  | some entry => entry .extractor (transformationArgs.map .str)
  | none =>
    match objectPrototypeMember transformationName transformationArgs with
    | some result => result
    | none => .error (.typeError "Cannot read property 'apply' of undefined")

/-- The test `transformations[i].indexOf(':') > -1`: a string has the
method; a function object has no `indexOf`, so the call raises a TypeError. -/
def indexOfColon : Descriptor Node → Except Err Bool
  | .str s => .ok (containsStr [':'] s.data)
  | .fn _ _ => .error (.typeError "transformations[i].indexOf is not a function")

/-- The method `applyTransformations`: each element in turn is resolved
(own registry name, else a string with a colon, else a function, else an
error) and applied to the item. -/
def applyTransformations (H : Host Node) :
    List (Descriptor Node) → Val Node → Except Err (Val Node)
  | [], item => .ok item
  | t :: rest, item =>
    match (transformations H).lookup t.key with
    | some entry =>
      match entry .registry [item] with
      | .ok item1 => applyTransformations H rest item1
      | .error e => .error e
    | none =>
      match indexOfColon t with
      | .error e => .error e
      | .ok true =>
        match parseTransformation H t.key with
        | .error e => .error e
        | .ok transformation =>
          match call H transformation item with
          | .ok item1 => applyTransformations H rest item1
          | .error e => .error e
      | .ok false =>
        match t with
        | .fn _ f =>
          match f item with
          | .ok item1 => applyTransformations H rest item1
          | .error e => .error e
        | .str s => .error (.thrown ("Transformation " ++ s ++ " not implemented"))

/-! ## Objects used as maps -/

/-- Define or overwrite an own property. -/
def setOwn {α : Type} (props : List (String × α)) (key : String) (v : α) : List (String × α) :=
  if props.any (fun p => p.1 = key) then props.map (fun p => if p.1 = key then (p.1, v) else p)
  else props ++ [(key, v)]

/-- The assignment `newObject[key] = v` on an object created by `{}`: the key
`__proto__` reaches the accessor inherited from `Object.prototype`, which
replaces the prototype when `v` is an object or null, ignores any other `v`,
and in either case creates no own property; every other key defines an own
property.  (A replaced prototype only adds inherited properties to a later
enumeration, and these fail its own-property test.) -/
def assignProperty {α : Type} (newObject : List (String × α)) (key : String) (v : α) :
    List (String × α) :=
  if key = "__proto__" then newObject else setOwn newObject key v

/-- The call `object.hasOwnProperty(key)` inside a `for (key in object)` loop
over own properties: it answers true, unless the object has an own property
named `hasOwnProperty`, whose value is then called instead of the inherited
method and is not a function. -/
def ownCheck {α : Type} (object : List (String × α)) : Except Err Bool :=
  if object.any (fun p => p.1 = "hasOwnProperty") then
    .error (.typeError "object.hasOwnProperty is not a function")
  else .ok true

/-- The loop of `filterObject` over the properties still to visit. -/
def filterLoop {α : Type} (object : List (String × α)) (func : String → α → Except Err Bool) :
    List (String × α) → List (String × α) → Except Err (List (String × α))
  | [], newObject => .ok newObject
  | (key, v) :: rest, newObject =>
    match ownCheck object with
    | .error e => .error e
    | .ok _ =>
      match func key v with
      | .error e => .error e
      | .ok true => filterLoop object func rest (assignProperty newObject key v)
      | .ok false => filterLoop object func rest newObject

/-- The function `filterObject`.  An object is given by its own enumerable
properties in enumeration order (keys distinct); its prototype is
`Object.prototype`. -/
def filterObject {α : Type} (object : List (String × α)) (func : String → α → Except Err Bool) :
    Except Err (List (String × α)) :=
  filterLoop object func object []

/-- The loop of `mapObject`, threading the state the callback works on. -/
def mapLoop {α β σ : Type} (object : List (String × α))
    (func : String → α → σ → Except Err β × σ) :
    List (String × α) → List (String × β) → σ → Except Err (List (String × β)) × σ
  | [], newObject, st => (.ok newObject, st)
  | (key, v) :: rest, newObject, st =>
    match ownCheck object with
    | .error e => (.error e, st)
    | .ok _ =>
      match func key v st with
      | (.error e, st1) => (.error e, st1)
      | (.ok w, st1) => mapLoop object func rest (assignProperty newObject key w) st1

/-- The function `mapObject`. -/
def mapObject {α β σ : Type} (object : List (String × α))
    (func : String → α → σ → Except Err β × σ) (st : σ) :
    Except Err (List (String × β)) × σ :=
  mapLoop object func object [] st

/-! ## The selector memo -/

/-- The prototype of the memo object: `Object.prototype` at first; an
assignment to the key `__proto__` replaces it by the assigned node or by
null. -/
inductive MemoProto (Node : Type) : Type where
  | objectPrototype
  | null
  | node (n : Node)

/-- The object `memoizedSelections`: its own properties and its prototype. -/
structure Memo (Node : Type) : Type where
  own : List (String × Val Node)
  proto : MemoProto Node

/-- The call `memoizedSelections.hasOwnProperty(key)`.  The method is found
on `Object.prototype` (a node used as prototype inherits it too); an own
property named `hasOwnProperty` hides it, and a null prototype loses it: the
call then raises a TypeError. -/
def Memo.hasOwnProperty (m : Memo Node) (key : String) : Except Err Bool :=
  if m.own.any (fun p => p.1 = "hasOwnProperty") then
    .error (.typeError "memoizedSelections.hasOwnProperty is not a function")
  else
    match m.proto with
    | .null => .error (.typeError "memoizedSelections.hasOwnProperty is not a function")
    | _ => .ok (m.own.any (fun p => p.1 = key))

/-- The assignment `memoizedSelections[key] = v`.  An existing own property
is overwritten.  Otherwise the key `__proto__` reaches the inherited accessor,
which sets the prototype when `v` is a node or null and defines nothing; with
a node as prototype a key that names an accessor of the node cannot be used on
the memo object (TypeError), and a key that names a read-only data property of
the node is silently left alone; any other key defines an own property. -/
def Memo.set (H : Host Node) (m : Memo Node) (key : String) (v : Val Node) :
    Except Err (Memo Node) :=
  if m.own.any (fun p => p.1 = key) then .ok { m with own := setOwn m.own key v }
  else if key = "__proto__" then
    match m.proto, v with
    | .null, _ => .ok { m with own := m.own ++ [(key, v)] }
    | _, .node n => .ok { m with proto := .node n }
    | _, .null => .ok { m with proto := .null }
    | _, _ => .ok m
  else
    match m.proto with
    | .node n =>
      match H.nodeInherited n key with
      | .accessor => .error (.typeError "Illegal invocation")
      | .readOnly _ => .ok m
      | .absent => .ok { m with own := m.own ++ [(key, v)] }
    | _ => .ok { m with own := m.own ++ [(key, v)] }

/-- The read `memoizedSelections[key]`: the own property when there is one;
for `__proto__` the inherited accessor answers the current prototype (and is
out of reach under a null prototype); with a node as prototype, the value of
the node's read-only data property of that name.  Other reads of a missing key
do not occur: every read follows a positive `hasOwnProperty` or an assignment
that defined the property. -/
def Memo.get (H : Host Node) (m : Memo Node) (key : String) : Val Node :=
  match m.own.lookup key with
  | some v => v
  | none =>
    if key = "__proto__" then
      match m.proto with
      | .objectPrototype => .obj .objectPrototype
      | .node n => .node n
      | .null => .undefined
    else
      match m.proto with
      | .node n =>
        match H.nodeInherited n key with
        | .readOnly value => value
        | _ => .undefined
      | _ => .undefined

/-! ## Extraction -/

/-- A field spec.  `condition` is absent, or a function given by the outcome
of calling it; `selector` is absent or a string; `transformations` is absent
or a chain of descriptors. -/
structure FieldSpec (Node : Type) : Type where
  condition : Option (Except Err (Val Node))
  selector : Option String
  transformations : Option (List (Descriptor Node))

/-- The state of one call of `extract`: the memo object and, for counting,
the selectors the memo step of `extractFromDOM` has passed to
`rootNode.querySelector` so far, oldest first.  The queries a `querySelector`
transformation of a chain makes on its item are not part of the memo step and
are not counted. -/
structure ExtractState (Node : Type) : Type where
  memoizedSelections : Memo Node
  queries : List String

/-- The filter callback of `extract`: `!spec.condition || spec.condition()`. -/
def conditionHolds (_key : String) (spec : FieldSpec Node) : Except Err Bool :=
  match spec.condition with
  | none => .ok true
  | some (.ok v) => .ok (truthy v)
  | some (.error e) => .error e

/-- The memo part of `extractFromDOM`, for a selector that counts as given:
when it is not yet an own property of the memo it is queried on the root node
and stored; the value is then read back from the memo. -/
def memoized (H : Host Node) (rootNode : Node) (selector : String) (st : ExtractState Node) :
    Except Err (Val Node) × ExtractState Node :=
  match st.memoizedSelections.hasOwnProperty selector with
  | .error e => (.error e, st)
  | .ok true => (.ok (Memo.get H st.memoizedSelections selector), st)
  | .ok false =>
    let st1 : ExtractState Node := { st with queries := st.queries ++ [selector] }
    match H.querySelector rootNode selector with
    | .error e => (.error e, st1)
    | .ok found =>
      let v : Val Node := match found with
        | some n => .node n
        | none => .null
      match st1.memoizedSelections.set H selector v with
      | .error e => (.error e, st1)
      | .ok memo => (.ok (Memo.get H memo selector), { st1 with memoizedSelections := memo })

/-- The first half of `extractFromDOM`: the output starts as the root node,
and `if (spec.selector)` replaces it by the memoized selection; an absent or
empty selector is falsy. -/
def select (H : Host Node) (rootNode : Node) (selector : Option String)
    (st : ExtractState Node) : Except Err (Val Node) × ExtractState Node :=
  match selector with
  | none => (.ok (.node rootNode), st)
  | some s => if s = "" then (.ok (.node rootNode), st) else memoized H rootNode s st

/-- The callback `extractFromDOM` of `extract`: the selection, then the
chain when `spec.transformations` is given. -/
def extractFromDOM (H : Host Node) (rootNode : Node) (_key : String) (spec : FieldSpec Node)
    (st : ExtractState Node) : Except Err (Val Node) × ExtractState Node :=
  match select H rootNode spec.selector st with
  | (.error e, st1) => (.error e, st1)
  | (.ok output, st1) =>
    match spec.transformations with
    | none => (.ok output, st1)
    | some chain => (applyTransformations H chain output, st1)

/-- One call of `extract`, with the final state. -/
def extractRun (H : Host Node) (rootNode : Node) (config : List (String × FieldSpec Node)) :
    Except Err (List (String × Val Node)) × ExtractState Node :=
  let st0 : ExtractState Node := { memoizedSelections := { own := [], proto := .objectPrototype },
                                    queries := [] }
  match filterObject config conditionHolds with
  | .error e => (.error e, st0)
  | .ok filteredConfig => mapObject filteredConfig (extractFromDOM H rootNode) st0

/-- The method `extract`: the output mapping, or the exception thrown. -/
def extract (H : Host Node) (rootNode : Node) (config : List (String × FieldSpec Node)) :
    Except Err (List (String × Val Node)) :=
  (extractRun H rootNode config).1

/-- The selectors the memo step of `extractFromDOM` passes to
`rootNode.querySelector` during one call of `extract`, in order: the queries
for the `selector` of a field, not those a `querySelector` transformation of a
chain makes on its item. -/
def queriesOf (H : Host Node) (rootNode : Node) (config : List (String × FieldSpec Node)) :
    List String :=
  (extractRun H rootNode config).2.queries

/-- The two statements `transformation = this.parseTransformation(descriptor);
item = transformation(item)` of `applyTransformations`: the transformation a
descriptor string denotes, applied to an item. -/
def applyDescriptor (H : Host Node) (descriptor : String) (item : Val Node) :
    Except Err (Val Node) :=
  match parseTransformation H descriptor with
  | .error e => .error e
  | .ok transformation => call H transformation item

end

/-! ## Auxiliary functions for stating what the loops compute -/

/-- Join character lists with a separator between neighbours, as
`Array.prototype.join` does on the level of characters. -/
def joinChars (sep : List Char) : List (List Char) → List Char
  | [] => []
  | [a] => a
  | a :: b :: rest => a ++ sep ++ joinChars sep (b :: rest)

/-- Whether `filterObject` keeps a property. -/
def keeps {α : Type} (func : String → α → Except Err Bool) (p : String × α) : Bool :=
  match func p.1 p.2 with
  | .ok true => decide (p.1 ≠ "__proto__")
  | _ => false

/-- The first exception the callback raises on a list of properties. -/
def firstError {α : Type} (func : String → α → Except Err Bool) : List (String × α) → Option Err
  | [] => none
  | p :: rest =>
    match func p.1 p.2 with
    | .error e => some e
    | .ok _ => firstError func rest

section
variable {Node : Type}

/-- A selector the memo can hold whatever its prototype has become: not
`__proto__`, and not the name of a read-only data property of a node. -/
def Storable (H : Host Node) (s : String) : Prop :=
  s ≠ "__proto__" ∧ ∀ (n : Node) (v : Val Node), H.nodeInherited n s ≠ .readOnly v

/-- Every storable selector the memo step queried so far is an own property of
the memo and was queried once. -/
def Memoized (H : Host Node) (st : ExtractState Node) : Prop :=
  ∀ s : String, Storable H s →
    st.queries.count s ≤ 1 ∧ (s ∈ st.queries → s ∈ st.memoizedSelections.own.map Prod.fst)

/-- No storable selector was queried twice by the memo step. -/
def QueriedOnce (H : Host Node) (st : ExtractState Node) : Prop :=
  ∀ s : String, Storable H s → st.queries.count s ≤ 1

/-- The state after a step satisfies `Good` when the step succeeded and
`Fine` when it raised. -/
def After {β σ : Type} (Good Fine : σ → Prop) (r : Except Err β × σ) : Prop :=
  match r with
  | (.ok _, st) => Good st
  | (.error _, st) => Fine st

/-- The closures with a type guard or a null guard: those of `querySelector`,
`querySelectorAll`, `getAttribute`, `multiplyBy`, `split`, `replace`, `match`
and `getIndex`. -/
def Fn.guarded : Fn Node → Bool
  | .querySelectorAll _ => true
  | .querySelector _ => true
  | .getAttribute _ => true
  | .multiplyBy _ => true
  | .split _ _ => true
  | .replace _ _ => true
  | .match_ _ => true
  | .getIndex _ => true
  | _ => false

/-- The closures of the node transformations: those of `querySelector`,
`querySelectorAll` and `getAttribute`. -/
def Fn.onNode : Fn Node → Bool
  | .querySelectorAll _ => true
  | .querySelector _ => true
  | .getAttribute _ => true
  | _ => false

/-- A chain element that resolves to a node transformation: one of the bare
names `innerHTML`, `innerText`, `value`, or a string with a colon that is no
registry name and that `parseTransformation` turns into a closure of
`querySelector`, `querySelectorAll` or `getAttribute`. -/
def NodeStep (H : Host Node) (d : Descriptor Node) : Prop :=
  ∃ s : String, d = .str s ∧
    (s ∈ ["innerHTML", "innerText", "value"]
      ∨ ((transformations H).lookup s = none ∧ containsStr [':'] s.data = true
          ∧ ∃ f : Fn Node, parseTransformation H s = .ok (.func f) ∧ f.onNode = true))

/-- A chain element that resolves to a guarded step: one of the bare names
`innerHTML`, `innerText`, `value`, `toInt`, `toFloat`, `round`, `trim`, or a
string with a colon that is no registry name and that `parseTransformation`
turns into a guarded closure. -/
def GuardedStep (H : Host Node) (d : Descriptor Node) : Prop :=
  ∃ s : String, d = .str s ∧
    (s ∈ ["innerHTML", "innerText", "value", "toInt", "toFloat", "round", "trim"]
      ∨ ((transformations H).lookup s = none ∧ containsStr [':'] s.data = true
          ∧ ∃ f : Fn Node, parseTransformation H s = .ok (.func f) ∧ f.guarded = true))

/-- The selection of the naive evaluation, which has no memo: a field with
a selector queries the root node afresh, a field without one starts from the
root node. -/
def naiveSelect (H : Host Node) (rootNode : Node) (selector : Option String) :
    Except Err (Val Node) :=
  match selector with
  | none => .ok (.node rootNode)
  | some s =>
    if s = "" then .ok (.node rootNode)
    else
      match H.querySelector rootNode s with
      | .error e => .error e
      | .ok (some n) => .ok (.node n)
      | .ok none => .ok .null

/-- The value of one field in the naive evaluation: the selection, then the
chain when one is given. -/
def naiveField (H : Host Node) (rootNode : Node) (spec : FieldSpec Node) :
    Except Err (Val Node) :=
  match naiveSelect H rootNode spec.selector with
  | .error e => .error e
  | .ok output =>
    match spec.transformations with
    | none => .ok output
    | some chain => applyTransformations H chain output

/-- The memo agrees with the document: its prototype is `Object.prototype`,
and every own property has a key other than `hasOwnProperty` and `__proto__`
and holds what `rootNode.querySelector` answers for that key. -/
def MemoSound (H : Host Node) (rootNode : Node) (st : ExtractState Node) : Prop :=
  st.memoizedSelections.proto = .objectPrototype
  ∧ ∀ p ∈ st.memoizedSelections.own,
      p.1 ≠ "hasOwnProperty" ∧ p.1 ≠ "__proto__"
      ∧ ((∃ n, H.querySelector rootNode p.1 = .ok (some n) ∧ p.2 = .node n)
          ∨ (H.querySelector rootNode p.1 = .ok none ∧ p.2 = .null))

/-- The naive evaluation `extract` is compared with: the same filtering and
the same assembly of the output, with every field evaluated by `naiveField`. -/
def extractNaive (H : Host Node) (rootNode : Node) (config : List (String × FieldSpec Node)) :
    Except Err (List (String × Val Node)) :=
  match filterObject config conditionHolds with
  | .error e => .error e
  | .ok filteredConfig =>
    (mapObject filteredConfig (fun _ spec (u : Unit) => (naiveField H rootNode spec, u)) ()).1

end

/-! ## An example host -/

/-- An element of an example document: its node, tag name, class and text. -/
structure ExampleElement where
  id : Nat
  tag : String
  cls : String
  text : String
  deriving DecidableEq, Repr

/-- Selector matching in the example documents: `.c` selects by class, any
other selector by tag name. -/
def exampleMatches (selector : String) (e : ExampleElement) : Bool :=
  match selector.data with
  | '.' :: c => decide (e.cls.data = c)
  | t => decide (e.tag.data = t)

/-- Replace every maximal run of the character `c` by `r`. -/
def replaceRuns (c : Char) (r : List Char) : List Char → List Char
  | [] => []
  | [x] => if x = c then r else [x]
  | x :: y :: rest =>
    if x = c then (if y = c then replaceRuns c r (y :: rest) else r ++ replaceRuns c r (y :: rest))
    else x :: replaceRuns c r (y :: rest)

/-- An example host over node numbers: node 0 is the document, the elements
of `doc` are its descendants in document order.  Its regular-expression engine
knows the pattern `a+` with flag `g` and a string replacement; arithmetic is
left trivial. -/
def exampleHost (doc : List ExampleElement) : Host Nat where
  querySelector := fun _ selector => .ok ((doc.find? (exampleMatches selector)).map (·.id))
  querySelectorAll := fun _ selector => .ok ((doc.filter (exampleMatches selector)).map (·.id))
  innerHTML := fun n => match doc.find? (fun e => e.id = n) with
    | some e => .str e.text
    | none => .undefined
  innerText := fun n => match doc.find? (fun e => e.id = n) with
    | some e => .str e.text
    | none => .undefined
  textContent := fun n => match doc.find? (fun e => e.id = n) with
    | some e => .str e.text
    | none => .null
  value := fun _ => .undefined
  hasGetAttribute := fun n => decide (n ≠ 0)
  getAttribute := fun n attr => match doc.find? (fun e => e.id = n) with
    | some e => if attr = "class" then some e.cls else none
    | none => none
  nodeInherited := fun _ key =>
    if key = "id" ∨ key = "title" then .accessor
    else if key = "ELEMENT_NODE" then .readOnly (.num (.fin 1))
    else .absent
  sliceCodeUnits := fun text _ _ => text
  splitCodeUnits := fun text _ => .arr [.str text]
  parseFloat := fun _ => .nan
  mathRound := fun n => n
  multiply := fun _ _ => .nan
  numberToString := fun _ => "NaN"
  objectToString := fun _ => "[object Object]"
  regExpOk := fun _ flags => flags.data.all (fun c => c ∈ "dgimsuvy".data)
  replaceRegExp := fun source flags text replacement =>
    match replacement with
    | .str r => if source = "a+" ∧ flags = "g" then .ok (String.mk (replaceRuns 'a' r.data text.data))
      else .ok text
    | _ => .ok text
  replaceCallback := fun text _ _ => .ok text
  matchRegExp := fun _ _ _ => .null
  splitRegExp := fun _ _ text _ => .arr [.str text]
  firstChildNodeValue := fun html => if html = "" then none else some (some html)

/-! ## Theorems -/

section
variable {Node : Type}

/-! ### Auxiliary lemmas -/

/-- Applying a concatenated chain is applying the first part and then, on
success, the second part to its result. -/
theorem applyTransformations_append (H : Host Node) (ts us : List (Descriptor Node))
    (x : Val Node) :
    applyTransformations H (ts ++ us) x
      = match applyTransformations H ts x with
        | .ok y => applyTransformations H us y
        | .error e => .error e := by
  induction ts generalizing x with
  | nil => rfl
  | cons t ts ih =>
    simp only [List.cons_append, applyTransformations]
    cases hl : (transformations H).lookup t.key with
    | some entry =>
      simp only []
      cases entry .registry [x] with
      | ok y => exact ih y
      | error e => rfl
    | none =>
      simp only []
      cases indexOfColon t with
      | error e => rfl
      | ok b =>
        cases b with
        | true =>
          simp only []
          cases parseTransformation H t.key with
          | error e => rfl
          | ok tr =>
            simp only []
            cases call H tr x with
            | ok y => exact ih y
            | error e => rfl
        | false =>
          simp only []
          cases t with
          | str s => rfl
          | fn src f =>
            simp only []
            cases f x with
            | ok y => exact ih y
            | error e => rfl

/-- A chain that starts with a string that is neither a registry name nor
contains a colon throws the `not implemented` message for that string. -/
theorem applyTransformations_unknown (H : Host Node) (name : String)
    (post : List (Descriptor Node)) (x : Val Node)
    (hname : (transformations H).lookup name = none)
    (hcolon : containsStr [':'] name.data = false) :
    applyTransformations H (.str name :: post) x
      = .error (.thrown ("Transformation " ++ name ++ " not implemented")) := by
  simp only [applyTransformations, Descriptor.key, hname, indexOfColon, hcolon]

/-- Defining a property whose key is not there yet appends it. -/
theorem setOwn_fresh {α : Type} (props : List (String × α)) (key : String) (v : α)
    (hfresh : ∀ q ∈ props, q.1 ≠ key) : setOwn props key v = props ++ [(key, v)] := by
  have hany : props.any (fun p => decide (p.1 = key)) = false := by
    rw [List.any_eq_false]
    intro q hq
    simpa using hfresh q hq
  simp only [setOwn, hany]
  rfl

/-- With distinct keys and the inherited `hasOwnProperty` in place,
`filterObject`'s loop either raises the first exception of the callback or
appends the kept properties, in order. -/
theorem filterLoop_eq {α : Type} (object : List (String × α))
    (func : String → α → Except Err Bool) (hown : ownCheck object = .ok true) :
    ∀ (l acc : List (String × α)), (l.map Prod.fst).Nodup →
      (∀ p ∈ l, ∀ q ∈ acc, q.1 ≠ p.1) →
      filterLoop object func l acc
        = match firstError func l with
          | some e => .error e
          | none => .ok (acc ++ l.filter (keeps func)) := by
  intro l
  induction l with
  | nil => intro acc _ _; simp [filterLoop, firstError]
  | cons p rest ih =>
    intro acc hnd hfresh
    obtain ⟨k, v⟩ := p
    have hnd1 : (rest.map Prod.fst).Nodup := (List.nodup_cons.mp hnd).2
    have hk : ∀ q ∈ rest, q.1 ≠ k := by
      intro q hq hqk
      apply (List.nodup_cons.mp hnd).1
      exact List.mem_map.mpr ⟨q, hq, hqk⟩
    have hfresh1 : ∀ p ∈ rest, ∀ q ∈ acc, q.1 ≠ p.1 :=
      fun p hp q hq => hfresh p (List.mem_cons_of_mem _ hp) q hq
    simp only [filterLoop, hown, firstError]
    cases hf : func k v with
    | error e => rfl
    | ok b =>
      cases b with
      | false =>
        simp only []
        rw [ih acc hnd1 hfresh1]
        simp [List.filter_cons, keeps, hf]
      | true =>
        simp only []
        by_cases hproto : k = "__proto__"
        · rw [assignProperty, if_pos hproto, ih acc hnd1 hfresh1]
          have hkeep : keeps func (k, v) = false := by
            subst hproto
            simp [keeps, hf]
          rw [List.filter_cons, hkeep]
          rfl
        · have hacc : ∀ q ∈ acc, q.1 ≠ k := fun q hq => hfresh (k, v) (List.mem_cons_self _ _) q hq
          rw [assignProperty, if_neg hproto, setOwn_fresh acc k v hacc, ih (acc ++ [(k, v)]) hnd1]
          · simp [List.filter_cons, keeps, hf, hproto]
          · intro p hp q hq
            rcases List.mem_append.mp hq with hq | hq
            · exact hfresh1 p hp q hq
            · simp only [List.mem_singleton] at hq
              subst hq
              exact fun h => hk p hp h.symm

/-- The loop of `filterObject` raises at once on a non-empty object whose
`hasOwnProperty` is hidden. -/
theorem filterLoop_ownCheck_error {α : Type} (object : List (String × α))
    (func : String → α → Except Err Bool) (e : Err) (hown : ownCheck object = .error e)
    (l acc : List (String × α)) (hl : l ≠ []) :
    filterLoop object func l acc = .error e := by
  cases l with
  | nil => exact absurd rfl hl
  | cons p rest =>
    obtain ⟨k, v⟩ := p
    simp only [filterLoop, hown]

/-- The own-property check answers true or raises. -/
theorem ownCheck_cases {α : Type} (object : List (String × α)) :
    ownCheck object = .ok true ∨ ∃ e, ownCheck object = .error e := by
  unfold ownCheck
  split
  · exact Or.inr ⟨_, rfl⟩
  · exact Or.inl rfl

/-- Looking for a key among properties is looking for it among their keys. -/
theorem any_key_map {α : Type} (key : String) (o : List (String × α)) :
    o.any (fun p => decide (p.1 = key)) = (o.map Prod.fst).any (fun k => decide (k = key)) := by
  induction o with
  | nil => rfl
  | cons p l ih => simp only [List.any_cons, List.map_cons, ih]

/-- The own-property check depends on the keys only. -/
theorem ownCheck_congr {α β : Type} (o1 : List (String × α)) (o2 : List (String × β))
    (hkeys : o1.map Prod.fst = o2.map Prod.fst) :
    (ownCheck o1 = .ok true ↔ ownCheck o2 = .ok true) := by
  unfold ownCheck
  rw [any_key_map, any_key_map, hkeys]

/-- The loop of `mapObject` over a concatenation runs the first part and
then, on success, the second part from the state reached. -/
theorem mapLoop_append {α β σ : Type} (object : List (String × α))
    (func : String → α → σ → Except Err β × σ) (l1 l2 : List (String × α)) :
    ∀ (acc : List (String × β)) (st : σ),
      mapLoop object func (l1 ++ l2) acc st
        = match mapLoop object func l1 acc st with
          | (.ok acc1, st1) => mapLoop object func l2 acc1 st1
          | (.error e, st1) => (.error e, st1) := by
  induction l1 with
  | nil => intro acc st; rfl
  | cons p rest ih =>
    intro acc st
    obtain ⟨k, v⟩ := p
    simp only [List.cons_append, mapLoop]
    cases ownCheck object with
    | error e => rfl
    | ok b =>
      simp only []
      cases hf : func k v st with
      | mk r st1 =>
        cases r with
        | error e => rfl
        | ok w => exact ih _ _

/-- The loop of `mapObject` depends on the object it enumerates only through
its own-property check. -/
theorem mapLoop_object {α β σ : Type} (o1 o2 : List (String × α))
    (func : String → α → σ → Except Err β × σ) (h1 : ownCheck o1 = .ok true)
    (h2 : ownCheck o2 = .ok true) (l : List (String × α)) :
    ∀ (acc : List (String × β)) (st : σ),
      mapLoop o1 func l acc st = mapLoop o2 func l acc st := by
  induction l with
  | nil => intro acc st; rfl
  | cons p rest ih =>
    intro acc st
    obtain ⟨k, v⟩ := p
    simp only [mapLoop, h1, h2]
    cases hf : func k v st with
    | mk r st1 =>
      cases r with
      | error e => rfl
      | ok w => exact ih _ _

/-- A field whose chain contains an unresolvable bare name fails from every
state. -/
theorem extractFromDOM_unknown (H : Host Node) (rootNode : Node) (key : String)
    (spec : FieldSpec Node) (pre post : List (Descriptor Node)) (name : String)
    (hchain : spec.transformations = some (pre ++ .str name :: post))
    (hname : (transformations H).lookup name = none)
    (hcolon : containsStr [':'] name.data = false) (st : ExtractState Node) :
    ∃ e st1, extractFromDOM H rootNode key spec st = (.error e, st1) := by
  unfold extractFromDOM
  cases hsel : select H rootNode spec.selector st with
  | mk r st1 =>
    cases r with
    | error e => exact ⟨e, st1, rfl⟩
    | ok output =>
      simp only [hchain]
      rw [applyTransformations_append]
      cases applyTransformations H pre output with
      | error e => exact ⟨e, st1, rfl⟩
      | ok y =>
        simp only []
        rw [applyTransformations_unknown H name post y hname hcolon]
        exact ⟨_, st1, rfl⟩

/-- Where the field with its chain cut before the unresolvable name succeeds,
the field itself throws the `not implemented` message for that name. -/
theorem extractFromDOM_truncated (H : Host Node) (rootNode : Node) (key : String)
    (spec : FieldSpec Node) (pre post : List (Descriptor Node)) (name : String)
    (hchain : spec.transformations = some (pre ++ .str name :: post))
    (hname : (transformations H).lookup name = none)
    (hcolon : containsStr [':'] name.data = false) (st st2 : ExtractState Node) (w : Val Node)
    (hok : extractFromDOM H rootNode key { spec with transformations := some pre } st
      = (.ok w, st2)) :
    extractFromDOM H rootNode key spec st
      = (.error (.thrown ("Transformation " ++ name ++ " not implemented")), st2) := by
  unfold extractFromDOM at hok ⊢
  simp only [] at hok
  cases hsel : select H rootNode spec.selector st with
  | mk r st1 =>
    rw [hsel] at hok
    cases r with
    | error e => simp at hok
    | ok output =>
      simp only [hchain]
      simp only [Prod.mk.injEq] at hok
      obtain ⟨hw, hst⟩ := hok
      rw [applyTransformations_append, hw]
      simp only []
      rw [applyTransformations_unknown H name post w hname hcolon, hst]

/-- The first exception of the callback does not change when a property's
value is replaced by one on which the callback answers the same. -/
theorem firstError_congr {α : Type} (func : String → α → Except Err Bool) (k : String)
    (v v1 : α) (hv : func k v = func k v1) (l1 l2 : List (String × α)) :
    firstError func (l1 ++ (k, v) :: l2) = firstError func (l1 ++ (k, v1) :: l2) := by
  induction l1 with
  | nil => simp only [List.nil_append, firstError, hv]
  | cons p rest ih =>
    simp only [List.cons_append, firstError]
    cases func p.1 p.2 with
    | error e => rfl
    | ok b => exact ih

/-- The loop of `mapObject` fails when the callback fails on one of the
properties from every state. -/
theorem mapLoop_fails {α β σ : Type} (object : List (String × α))
    (func : String → α → σ → Except Err β × σ) (l1 l2 : List (String × α)) (k : String) (v : α)
    (hfail : ∀ st, ∃ e st1, func k v st = (.error e, st1)) (acc : List (String × β)) (st : σ) :
    ∃ e st1, mapLoop object func (l1 ++ (k, v) :: l2) acc st = (.error e, st1) := by
  rw [mapLoop_append]
  cases mapLoop object func l1 acc st with
  | mk r st1 =>
    cases r with
    | error e => exact ⟨e, st1, rfl⟩
    | ok acc1 =>
      simp only [mapLoop]
      cases ownCheck object with
      | error e => exact ⟨e, st1, rfl⟩
      | ok b =>
        obtain ⟨e, st2, h⟩ := hfail st1
        simp only [h]
        exact ⟨e, st2, rfl⟩

/-- Splitting on a one-character separator a text that does not contain it
gives the text as the only piece. -/
theorem splitOnAux_no_separator (c : Char) (xs : List Char) (hxs : c ∉ xs) :
    ∀ cur : List Char, splitOnAux [c] xs cur 0 = [cur.reverse ++ xs] := by
  induction xs with
  | nil => intro cur; simp [splitOnAux]
  | cons x rest ih =>
    intro cur
    have hx : c ≠ x := fun h => hxs (h ▸ List.mem_cons_self _ _)
    have hrest : c ∉ rest := fun h => hxs (List.mem_cons_of_mem _ h)
    simp [splitOnAux, startsWith, List.isPrefixOf, hx, ih hrest]

/-- Splitting on a one-character separator cuts at its first occurrence. -/
theorem splitOnAux_separator (c : Char) (xs ys : List Char) (hxs : c ∉ xs) :
    ∀ cur : List Char,
      splitOnAux [c] (xs ++ c :: ys) cur 0 = (cur.reverse ++ xs) :: splitOnAux [c] ys [] 0 := by
  induction xs with
  | nil => intro cur; simp [splitOnAux, startsWith, List.isPrefixOf]
  | cons x rest ih =>
    intro cur
    have hx : c ≠ x := fun h => hxs (h ▸ List.mem_cons_self _ _)
    have hrest : c ∉ rest := fun h => hxs (List.mem_cons_of_mem _ h)
    simp [splitOnAux, startsWith, List.isPrefixOf, hx, ih hrest]

/-- The pieces of `/body/flags` around the slashes when neither `body` nor
`flags` contains one: the empty string, the body and the flags. -/
theorem splitAll_regExp_literal (body flags : List Char) (hbody : '/' ∉ body)
    (hflags : '/' ∉ flags) :
    splitAll ['/'] ('/' :: (body ++ '/' :: flags)) = [[], body, flags] := by
  have h1 := splitOnAux_separator '/' [] (body ++ '/' :: flags) (List.not_mem_nil _) []
  have h2 := splitOnAux_separator '/' body flags hbody []
  have h3 := splitOnAux_no_separator '/' flags hflags []
  simp only [List.nil_append, List.reverse_nil] at h1 h2 h3
  simp only [splitAll, h1, h2, h3]
  simp

/-- The recogniser accepts a slash, any body, a slash and at most four flag
letters. -/
theorem stringIsRegExp_literal (s : String) (body flags : List Char)
    (hs : s.data = '/' :: (body ++ '/' :: flags))
    (hflags : ∀ c ∈ flags, isRegExpFlag c = true) (hlen : flags.length ≤ 4) :
    stringIsRegExp s = true := by
  simp only [stringIsRegExp, hs]
  rw [List.any_eq_true]
  refine ⟨flags.length, List.mem_range.mpr (by omega), ?_⟩
  have hrev : (body ++ '/' :: flags).reverse = flags.reverse ++ '/' :: body.reverse := by simp
  rw [hrev]
  have hget : (flags.reverse ++ '/' :: body.reverse)[flags.length]? = some '/' := by
    rw [List.getElem?_append_right (by simp)]
    simp
  have htake : (flags.reverse ++ '/' :: body.reverse).take flags.length = flags.reverse := by
    rw [List.take_append_eq_append_take]
    simp
  rw [hget, htake]
  simp only [beq_self_eq_true, Bool.true_and, List.all_eq_true]
  intro c hc
  exact hflags c (List.mem_reverse.mp hc)

/-- On `/body/flags` with a body free of slashes `toRegExp` constructs the
regular expression from `body` and `flags`. -/
theorem toRegExp_literal (H : Host Node) (body flags : String) (hbody : '/' ∉ body.data)
    (hflags : ∀ c ∈ flags.data, isRegExpFlag c = true) :
    toRegExp H ("/" ++ body ++ "/" ++ flags) = newRegExp H body flags := by
  have hp : ("/" ++ body ++ "/" ++ flags).data = '/' :: (body.data ++ '/' :: flags.data) := by
    simp [String.data_append]
  have hslash : '/' ∉ flags.data := fun h => by
    have := hflags '/' h
    revert this
    decide
  simp only [toRegExp, hp, splitAll_regExp_literal body.data flags.data hbody hslash]
  rfl

/-! ### General properties of the loops, the memo and `getIndex` -/

/-- The closure of `getIndex` returns the element at an index within bounds. -/
theorem getIndex_in_bounds (H : Host Node) (xs : List (Val Node)) (i : Nat)
    (hi : i < xs.length) :
    callFn H (.getIndex (.fin (i : Rat))) (.arr xs) = .ok (xs.get ⟨i, hi⟩) := by
  have hlt : lengthGreater xs.length (.fin (i : Rat)) = true := by
    simp [lengthGreater, hi]
  simp [callFn, hlt, elementAt, List.getElem?_eq_getElem hi]

/-- The closure of `getIndex` returns false for an index at or beyond the
length. -/
theorem getIndex_out_of_bounds (H : Host Node) (xs : List (Val Node)) (i : Nat)
    (hi : xs.length ≤ i) :
    callFn H (.getIndex (.fin (i : Rat))) (.arr xs) = .ok (.bool false) := by
  have hlt : lengthGreater xs.length (.fin (i : Rat)) = false := by
    simp [lengthGreater, hi]
  simp [callFn, hlt]

/-- The closure of `getIndex` returns false on anything that is not an array. -/
theorem getIndex_not_array (H : Host Node) (index : Num) (x : Val Node)
    (hx : isArray x = false) :
    callFn H (.getIndex index) x = .ok (.bool false) := by
  cases x <;> simp_all [callFn, isArray]

/-- On success the loop of `mapObject` has appended one key per property, in
order, when the keys are distinct and none is `__proto__`. -/
theorem mapLoop_keys {α β σ : Type} (object : List (String × α))
    (func : String → α → σ → Except Err β × σ) :
    ∀ (l : List (String × α)) (acc out : List (String × β)) (st st1 : σ),
      (l.map Prod.fst).Nodup → (∀ p ∈ l, p.1 ≠ "__proto__") →
      (∀ p ∈ l, ∀ q ∈ acc, q.1 ≠ p.1) →
      mapLoop object func l acc st = (.ok out, st1) →
      out.map Prod.fst = acc.map Prod.fst ++ l.map Prod.fst := by
  intro l
  induction l with
  | nil =>
    intro acc out st st1 _ _ _ h
    simp only [mapLoop, Prod.mk.injEq, Except.ok.injEq] at h
    simp [h.1]
  | cons p rest ih =>
    intro acc out st st1 hnd hproto hfresh h
    obtain ⟨k, v⟩ := p
    have hnd1 : (rest.map Prod.fst).Nodup := (List.nodup_cons.mp hnd).2
    have hk : ∀ q ∈ rest, q.1 ≠ k := by
      intro q hq hqk
      apply (List.nodup_cons.mp hnd).1
      exact List.mem_map.mpr ⟨q, hq, hqk⟩
    simp only [mapLoop] at h
    cases hoc : ownCheck object with
    | error e => rw [hoc] at h; simp at h
    | ok b =>
      rw [hoc] at h
      simp only [] at h
      cases hf : func k v st with
      | mk r st2 =>
        rw [hf] at h
        cases r with
        | error e => simp at h
        | ok w =>
          simp only [] at h
          have hacc : ∀ q ∈ acc, q.1 ≠ k :=
            fun q hq => hfresh (k, v) (List.mem_cons_self _ _) q hq
          have hkp : k ≠ "__proto__" := hproto (k, v) (List.mem_cons_self _ _)
          rw [assignProperty, if_neg hkp, setOwn_fresh acc k w hacc] at h
          rw [ih (acc ++ [(k, w)]) out st2 st1 hnd1
            (fun p hp => hproto p (List.mem_cons_of_mem _ hp)) ?_ h]
          · simp
          · intro p hp q hq
            rcases List.mem_append.mp hq with hq | hq
            · exact hfresh p (List.mem_cons_of_mem _ hp) q hq
            · simp only [List.mem_singleton] at hq
              subst hq
              exact fun h => hk p hp h.symm

/-- The keys of the output of `extract`, for a configuration with distinct
keys: those of the fields that are not skipped, in order, except a field under
the key `__proto__`. -/
theorem extract_keys (H : Host Node) (rootNode : Node)
    (config : List (String × FieldSpec Node)) (out : List (String × Val Node))
    (hnodup : (config.map Prod.fst).Nodup) (hout : extract H rootNode config = .ok out) :
    out.map Prod.fst = (config.filter (keeps conditionHolds)).map Prod.fst := by
  unfold extract extractRun filterObject at hout
  cases config with
  | nil =>
    simp only [filterLoop, mapObject, mapLoop, Except.ok.injEq] at hout
    simp [← hout]
  | cons p rest =>
    rcases ownCheck_cases (p :: rest) with hown | ⟨e, hown⟩
    · rw [filterLoop_eq _ _ hown _ [] hnodup (fun _ _ q hq => absurd hq (List.not_mem_nil q))]
        at hout
      cases hfe : firstError conditionHolds (p :: rest) with
      | some e => rw [hfe] at hout; simp at hout
      | none =>
        rw [hfe] at hout
        simp only [List.nil_append, mapObject] at hout
        cases hm : mapLoop ((p :: rest).filter (keeps conditionHolds))
            (extractFromDOM H rootNode) ((p :: rest).filter (keeps conditionHolds)) []
            { memoizedSelections := { own := [], proto := .objectPrototype }, queries := [] } with
        | mk r st1 =>
          rw [hm] at hout
          simp only [] at hout
          subst hout
          have hsub : (((p :: rest).filter (keeps conditionHolds)).map Prod.fst).Nodup :=
            hnodup.sublist ((List.filter_sublist _).map _)
          have hkeys := mapLoop_keys _ _ _ [] out _ st1 hsub ?_
            (fun _ _ q hq => absurd hq (List.not_mem_nil q)) hm
          · simpa using hkeys
          · intro q hq
            have hq2 := (List.mem_filter.mp hq).2
            unfold keeps at hq2
            split at hq2
            · simpa using hq2
            · simp at hq2
    · rw [filterLoop_ownCheck_error _ _ e hown _ _ (List.cons_ne_nil _ _)] at hout
      simp at hout

/-- The memo invariant implies that no selector was queried twice. -/
theorem Memoized.queriedOnce {H : Host Node} {st : ExtractState Node} (h : Memoized H st) :
    QueriedOnce H st :=
  fun s hs => (h s hs).1

/-- A successful assignment to the memo keeps its own keys and, for a
storable key, adds the key. -/
theorem Memo.set_keys (H : Host Node) (m m1 : Memo Node) (key : String) (v : Val Node)
    (hset : m.set H key v = .ok m1) :
    (∀ s ∈ m.own.map Prod.fst, s ∈ m1.own.map Prod.fst)
    ∧ (Storable H key → key ∈ m1.own.map Prod.fst) := by
  unfold Memo.set at hset
  split at hset
  · rename_i hany
    simp only [Except.ok.injEq] at hset
    subst hset
    have hmem : key ∈ m.own.map Prod.fst := by
      rw [List.any_eq_true] at hany
      obtain ⟨p, hp, hpk⟩ := hany
      exact List.mem_map.mpr ⟨p, hp, by simpa using hpk⟩
    have hkeys : (setOwn m.own key v).map Prod.fst = m.own.map Prod.fst := by
      simp only [setOwn, hany, if_true, List.map_map]
      apply List.map_congr_left
      intro p _
      by_cases hpk : p.1 = key <;> simp [hpk]
    simp only [hkeys]
    exact ⟨fun s hs => hs, fun _ => hmem⟩
  · split at hset
    · rename_i hproto
      refine ⟨?_, fun h => absurd hproto h.1⟩
      split at hset <;> simp only [Except.ok.injEq] at hset <;> subst hset <;> intro s hs
      · simp only [List.map_append, List.mem_append]; exact Or.inl hs
      · exact hs
      · exact hs
      · exact hs
    · split at hset
      · split at hset
        · simp at hset
        · rename_i n _ _ w hro
          simp only [Except.ok.injEq] at hset
          subst hset
          exact ⟨fun s hs => hs, fun h => absurd hro (h.2 n w)⟩
        · simp only [Except.ok.injEq] at hset
          subst hset
          simp only [List.map_append, List.mem_append, List.map_cons, List.map_nil,
            List.mem_singleton]
          exact ⟨fun s hs => Or.inl hs, fun _ => Or.inr trivial⟩
      · simp only [Except.ok.injEq] at hset
        subst hset
        simp only [List.map_append, List.mem_append, List.map_cons, List.map_nil,
          List.mem_singleton]
        exact ⟨fun s hs => Or.inl hs, fun _ => Or.inr trivial⟩

/-- The memo step keeps the invariant when it succeeds and queries no selector
twice when it raises. -/
theorem memoized_invariant (H : Host Node) (rootNode : Node) (selector : String)
    (st : ExtractState Node) (hst : Memoized H st) :
    After (Memoized H) (QueriedOnce H) (memoized H rootNode selector st) := by
  unfold memoized
  cases hown : st.memoizedSelections.hasOwnProperty selector with
  | error e => exact hst.queriedOnce
  | ok b =>
    cases b with
    | true => exact hst
    | false =>
      have hnot : selector ∉ st.memoizedSelections.own.map Prod.fst := by
        intro hmem
        unfold Memo.hasOwnProperty at hown
        split at hown
        · simp at hown
        · split at hown
          · simp at hown
          · simp only [Except.ok.injEq, List.any_eq_false] at hown
            obtain ⟨p, hp, hpk⟩ := List.mem_map.mp hmem
            exact hown p hp (by simpa using hpk)
      have hcount : ∀ s : String, Storable H s →
          (st.queries ++ [selector]).count s ≤ 1 := by
        intro s hs
        rw [List.count_append]
        by_cases hsel : selector = s
        · subst hsel
          have h0 : st.queries.count selector = 0 :=
            List.count_eq_zero.mpr fun hq => hnot ((hst selector hs).2 hq)
          simp [h0]
        · have h1 : [selector].count s = 0 :=
            List.count_eq_zero.mpr (by simpa using fun h => hsel h.symm)
          rw [h1]
          exact (hst s hs).1
      simp only []
      cases H.querySelector rootNode selector with
      | error e => exact hcount
      | ok found =>
        simp only []
        cases hset : Memo.set H st.memoizedSelections selector
            (match found with
              | some n => Val.node n
              | none => Val.null) with
        | error e => exact hcount
        | ok memo =>
          intro s hs
          refine ⟨hcount s hs, ?_⟩
          intro hq
          have hkeys := Memo.set_keys H _ _ _ _ hset
          rcases List.mem_append.mp hq with hq | hq
          · exact hkeys.1 s ((hst s hs).2 hq)
          · simp only [List.mem_singleton] at hq
            subst hq
            exact hkeys.2 hs

/-- The callback `extractFromDOM` keeps the memo invariant when it succeeds and
queries no selector twice when it raises. -/
theorem extractFromDOM_invariant (H : Host Node) (rootNode : Node) (key : String)
    (spec : FieldSpec Node) (st : ExtractState Node) (hst : Memoized H st) :
    After (Memoized H) (QueriedOnce H) (extractFromDOM H rootNode key spec st) := by
  have hsel : After (Memoized H) (QueriedOnce H) (select H rootNode spec.selector st) := by
    unfold select
    cases spec.selector with
    | none => exact hst
    | some s =>
      simp only []
      by_cases he : s = ""
      · rw [if_pos he]
        exact hst
      · rw [if_neg he]
        exact memoized_invariant H rootNode s st hst
  unfold extractFromDOM
  cases hs : select H rootNode spec.selector st with
  | mk r st1 =>
    rw [hs] at hsel
    cases r with
    | error e => exact hsel
    | ok output =>
      simp only [] at hsel ⊢
      cases spec.transformations with
      | none => exact hsel
      | some chain =>
        simp only []
        cases applyTransformations H chain output with
        | error e => exact hsel.queriedOnce
        | ok w => exact hsel

/-- An invariant of the callback is an invariant of the loop of `mapObject`. -/
theorem mapLoop_invariant {α β σ : Type} (object : List (String × α))
    (func : String → α → σ → Except Err β × σ) (Good Fine : σ → Prop)
    (hweak : ∀ st, Good st → Fine st)
    (hstep : ∀ k v st, Good st → After Good Fine (func k v st)) :
    ∀ (l : List (String × α)) (acc : List (String × β)) (st : σ), Good st →
      After Good Fine (mapLoop object func l acc st) := by
  intro l
  induction l with
  | nil => intro acc st hst; exact hst
  | cons p rest ih =>
    intro acc st hst
    obtain ⟨k, v⟩ := p
    simp only [mapLoop]
    cases ownCheck object with
    | error e => exact hweak st hst
    | ok b =>
      simp only []
      have h := hstep k v st hst
      cases hf : func k v st with
      | mk r st1 =>
        rw [hf] at h
        cases r with
        | error e => exact h
        | ok w => exact ih _ st1 h

/-- During one call of `extract` the memo step passes every storable selector
to `rootNode.querySelector` at most once, also when the call fails. -/
theorem queries_at_most_once (H : Host Node) (rootNode : Node)
    (config : List (String × FieldSpec Node)) (s : String) (hs : Storable H s) :
    (queriesOf H rootNode config).count s ≤ 1 := by
  have h0 : Memoized H (⟨⟨[], .objectPrototype⟩, []⟩ : ExtractState Node) := by
    intro s _
    simp
  unfold queriesOf extractRun
  cases filterObject config conditionHolds with
  | error e => simp
  | ok filteredConfig =>
    simp only [mapObject]
    have h := mapLoop_invariant filteredConfig (extractFromDOM H rootNode) (Memoized H)
      (QueriedOnce H)
      (fun _ h => h.queriedOnce) (extractFromDOM_invariant H rootNode) filteredConfig [] _ h0
    cases hm : mapLoop filteredConfig (extractFromDOM H rootNode) filteredConfig []
        (⟨⟨[], .objectPrototype⟩, []⟩ : ExtractState Node) with
    | mk r st1 =>
      rw [hm] at h
      cases r with
      | error e => exact h s hs
      | ok out => exact (h s hs).1

/-- The hypothesis of `queries_at_most_once` is needed.  Once the selector
`__proto__` has matched an element, that node is the prototype of the memo,
and a selector that names a read-only data property of the node is never
stored: two fields with the selector `ELEMENT_NODE` make two queries, and both
read the inherited value 1. -/
theorem queries_read_only_selector :
    queriesOf (exampleHost [⟨1, "__proto__", "", "x"⟩]) 0
        [("p", ⟨none, some "__proto__", none⟩), ("a", ⟨none, some "ELEMENT_NODE", none⟩),
          ("b", ⟨none, some "ELEMENT_NODE", none⟩)]
      = ["__proto__", "ELEMENT_NODE", "ELEMENT_NODE"]
    ∧ extract (exampleHost [⟨1, "__proto__", "", "x"⟩]) 0
        [("p", ⟨none, some "__proto__", none⟩), ("a", ⟨none, some "ELEMENT_NODE", none⟩),
          ("b", ⟨none, some "ELEMENT_NODE", none⟩)]
      = .ok [("p", .node 1), ("a", .num (.fin 1)), ("b", .num (.fin 1))] := by
  exact ⟨rfl, rfl⟩

/-! ### The claims -/

/-- Claim C1, evaluated on the code: a chain element that is a plain function
(here with the text `function (x) { return x; }`) is never applied.  Its text
is not a registry name, and the next test calls `indexOf` on it, which a
function object does not have: `applyTransformations` raises a TypeError before
the `isFunction` branch is reached, whatever the function, the rest of the
chain and the item are. -/
theorem applyTransformations_function_element (H : Host Node)
    (f : Val Node → Except Err (Val Node)) (rest : List (Descriptor Node)) (item : Val Node) :
    applyTransformations H (.fn "function (x) { return x; }" f :: rest) item
      = .error (.typeError "transformations[i].indexOf is not a function") := by
  rfl

/-- Claim C2 as stated fails: the transformation parsed from `split:,:2`
maps `a,b,c` to the empty array, which is not the result of splitting `a,b,c`
on `,` with limit 2, the two pieces `a` and `b`. -/
theorem split_descriptor_counterexample :
    applyDescriptor (exampleHost []) "split:,:2" (.str "a,b,c") = .ok (.arr [])
    ∧ jsSplit (exampleHost []) "a,b,c" (.str ",") (some (.fin 2)) = .arr [.str "a", .str "b"]
    ∧ applyDescriptor (exampleHost []) "split:,:2" (.str "a,b,c")
        ≠ .ok (jsSplit (exampleHost []) "a,b,c" (.str ",") (some (.fin 2))) := by
  have h1 : applyDescriptor (exampleHost []) "split:,:2" (.str "a,b,c") = .ok (.arr []) := rfl
  have h2 : jsSplit (exampleHost []) "a,b,c" (.str ",") (some (.fin 2))
      = .arr [.str "a", .str "b"] := rfl
  refine ⟨h1, h2, ?_⟩
  rw [h1, h2]
  intro h
  cases h

/-- Claim C2, amended: the descriptor `split:,:2` is cut into the name `split`
and the comma-separated arguments `""` and `":2"`, so it denotes `split` with
the empty delimiter and the limit `parseInt(":2", 10)`, which is NaN and counts
as 0: every string input gives the empty array.  With the arguments separated
by a comma, as in `split:;,2`, the result is the first at most two pieces of
the input split on the delimiter. -/
theorem split_descriptor (H : Host Node) (s : String) :
    parseTransformation H "split:,:2" = .ok (.func (.split (.str "") (some .nan)))
    ∧ applyDescriptor H "split:,:2" (.str s) = .ok (.arr [])
    ∧ applyDescriptor H "split:;,2" (.str s)
        = .ok (.arr (((splitAll [';'] s.data).take 2).map fun piece => .str (String.mk piece))) := by
  exact ⟨rfl, rfl, rfl⟩

/-- Claim C3 as stated fails: the transformation parsed from `replace:/a+/g:b`
leaves `caaat aa` unchanged instead of giving `cbt b`. -/
theorem replace_descriptor_counterexample :
    applyDescriptor (exampleHost []) "replace:/a+/g:b" (.str "caaat aa") = .ok (.str "caaat aa")
    ∧ applyDescriptor (exampleHost []) "replace:/a+/g:b" (.str "caaat aa")
        ≠ .ok (.str "cbt b") := by
  have h1 : applyDescriptor (exampleHost []) "replace:/a+/g:b" (.str "caaat aa")
      = .ok (.str "caaat aa") := rfl
  refine ⟨h1, ?_⟩
  rw [h1]
  intro h
  have hs : ("caaat aa" : String) = "cbt b" := by
    injection h with h
    injection h
  revert hs
  decide

/-- Claim C3, amended: with a comma between the arguments, `replace:/a+/g,b`
has the pattern argument `/a+/g`, which is recognised as a regex literal and
becomes the regular expression with source `a+` and flag `g` (accepted by the
host), and the replacement `b`: on every string `s` the transformation returns
what the host's engine gives for `s.replace(/a+/g, "b")`.  In `replace:/a+/g:b`
the whole remainder `/a+/g:b` is the only argument; it is not of the regex
form, so it is a literal pattern, and the replacement is undefined. -/
theorem replace_descriptor (H : Host Node) (s : String) (hok : H.regExpOk "a+" "g" = true) :
    stringIsRegExp "/a+/g" = true
    ∧ parseTransformation H "replace:/a+/g,b" = .ok (.func (.replace (.regexp "a+" "g") (.str "b")))
    ∧ applyDescriptor H "replace:/a+/g,b" (.str s)
        = (H.replaceRegExp "a+" "g" s (.str "b")).map .str
    ∧ stringIsRegExp "/a+/g:b" = false
    ∧ parseTransformation H "replace:/a+/g:b"
        = .ok (.func (.replace (.str "/a+/g:b") .undefined))
    ∧ applyDescriptor H "replace:/a+/g:b" (.str s) = jsReplace H s (.str "/a+/g:b") .undefined := by
  have hparse : parseTransformation H "replace:/a+/g,b"
      = .ok (.func (.replace (.regexp "a+" "g") (.str "b"))) := by
    have h1 : parseTransformation H "replace:/a+/g,b"
        = (newRegExp H "a+" "g").map fun p => .func (.replace p (.str "b")) := rfl
    rw [h1, newRegExp, if_pos ⟨by decide, hok⟩]
    rfl
  refine ⟨by decide, hparse, ?_, by decide, rfl, rfl⟩
  simp only [applyDescriptor, hparse]
  rfl

/-- Witness for `replace_descriptor`: with the example host the comma form
turns `caaat aa` into `cbt b`. -/
theorem replace_descriptor_witness :
    (exampleHost []).regExpOk "a+" "g" = true
    ∧ applyDescriptor (exampleHost []) "replace:/a+/g,b" (.str "caaat aa") = .ok (.str "cbt b") :=
  ⟨rfl, (replace_descriptor (exampleHost []) "caaat aa" rfl).2.2.1.trans rfl⟩

/-- Claim C4, evaluated on the code: a configuration with the own keys `title`
and `__proto__` (as `JSON.parse` builds one), neither with a condition, gives an
output with the single key `title`.  In `filterObject` the assignment
`newObject["__proto__"] = ...` replaces the prototype of the new object and
defines no own property, so the field is dropped although nothing skips it. -/
theorem extract_proto_key (H : Host Node) (rootNode : Node) :
    extract H rootNode [("title", ⟨none, none, none⟩), ("__proto__", ⟨none, none, none⟩)]
      = .ok [("title", .node rootNode)] := by
  rfl

/-- Claim C5, evaluated on the code: when the root node has a descendant `n`
matching the selector `__proto__`, two fields with that selector make two
queries.  The assignment `memoizedSelections["__proto__"] = n` replaces the
prototype of the memo object and defines no own property, so the second
`hasOwnProperty` test fails again. -/
theorem extract_proto_selector (H : Host Node) (rootNode n : Node)
    (hfound : H.querySelector rootNode "__proto__" = .ok (some n)) :
    queriesOf H rootNode
        [("a", ⟨none, some "__proto__", none⟩), ("b", ⟨none, some "__proto__", none⟩)]
      = ["__proto__", "__proto__"]
    ∧ extract H rootNode
        [("a", ⟨none, some "__proto__", none⟩), ("b", ⟨none, some "__proto__", none⟩)]
      = .ok [("a", .node n), ("b", .node n)] := by
  constructor
  · simp [queriesOf, extractRun, filterObject, filterLoop, ownCheck, conditionHolds,
      assignProperty, setOwn, mapObject, mapLoop, extractFromDOM, select, memoized,
      Memo.hasOwnProperty, Memo.set, Memo.get, hfound]
  · simp [extract, extractRun, filterObject, filterLoop, ownCheck, conditionHolds,
      assignProperty, setOwn, mapObject, mapLoop, extractFromDOM, select, memoized,
      Memo.hasOwnProperty, Memo.set, Memo.get, hfound]

/-- Witness for `extract_proto_selector`: a document whose only element has
the tag name `__proto__`. -/
theorem extract_proto_selector_witness :
    (exampleHost [⟨1, "__proto__", "", "x"⟩]).querySelector 0 "__proto__" = .ok (some 1)
    ∧ queriesOf (exampleHost [⟨1, "__proto__", "", "x"⟩]) 0
        [("a", ⟨none, some "__proto__", none⟩), ("b", ⟨none, some "__proto__", none⟩)]
      = ["__proto__", "__proto__"] :=
  ⟨rfl, (extract_proto_selector (exampleHost [⟨1, "__proto__", "", "x"⟩]) 0 1 rfl).1⟩

/-- No exception on a list of properties means none on a prefix of it. -/
theorem firstError_prefix {α : Type} (func : String → α → Except Err Bool)
    (l1 l2 : List (String × α)) (h : firstError func (l1 ++ l2) = none) :
    firstError func l1 = none := by
  induction l1 with
  | nil => rfl
  | cons p rest ih =>
    simp only [List.cons_append, firstError] at h ⊢
    cases hf : func p.1 p.2 with
    | error e => rw [hf] at h; cases h
    | ok b => rw [hf] at h; exact ih h

/-- The own-property check passes on the first properties of an object on
which it passes. -/
theorem ownCheck_prefix {α : Type} (l1 l2 : List (String × α))
    (h : ownCheck (l1 ++ l2) = .ok true) : ownCheck l1 = .ok true := by
  unfold ownCheck at h ⊢
  rw [List.any_append] at h
  cases h1 : l1.any (fun p => decide (p.1 = "hasOwnProperty")) with
  | true => rw [h1] at h; simp at h
  | false => simp

/-- The own-property check passes on a selection of the properties of an
object on which it passes. -/
theorem ownCheck_filter {α : Type} (object : List (String × α)) (keep : String × α → Bool)
    (h : ownCheck object = .ok true) : ownCheck (object.filter keep) = .ok true := by
  unfold ownCheck at h ⊢
  cases h1 : object.any (fun p => decide (p.1 = "hasOwnProperty")) with
  | true => rw [h1] at h; simp at h
  | false =>
    have h2 : (object.filter keep).any (fun p => decide (p.1 = "hasOwnProperty")) = false := by
      rw [List.any_eq_false] at h1 ⊢
      intro q hq
      exact h1 q (List.mem_filter.mp hq).1
    rw [h2]
    simp

/-- A field whose chain holds an unknown name runs as the field with the chain
cut just before the name, and then throws the message for the name. -/
theorem extractFromDOM_cut (H : Host Node) (rootNode : Node) (key : String)
    (spec : FieldSpec Node) (pre post : List (Descriptor Node)) (name : String)
    (hchain : spec.transformations = some (pre ++ .str name :: post))
    (hname : (transformations H).lookup name = none)
    (hcolon : containsStr [':'] name.data = false) (st : ExtractState Node) :
    extractFromDOM H rootNode key spec st
      = match extractFromDOM H rootNode key { spec with transformations := some pre } st with
        | (.ok _, st2) => (.error (.thrown ("Transformation " ++ name ++ " not implemented")), st2)
        | (.error e, st2) => (.error e, st2) := by
  unfold extractFromDOM
  simp only [hchain]
  cases hsel : select H rootNode spec.selector st with
  | mk r st1 =>
    cases r with
    | error e => rfl
    | ok output =>
      simp only []
      rw [applyTransformations_append]
      cases hw : applyTransformations H pre output with
      | error e => rfl
      | ok w =>
        simp only []
        rw [applyTransformations_unknown H name post w hname hcolon]

/-- When the filter pass of `extract` succeeds, a configuration with a field
whose chain holds an unknown name runs as the configuration that ends with
this field, its chain cut just before the name: a failure there is the failure
of the call, and after a success there the call throws the message for the
name. -/
theorem extract_cut (H : Host Node) (rootNode : Node)
    (before after : List (String × FieldSpec Node)) (key : String) (spec : FieldSpec Node)
    (pre post : List (Descriptor Node)) (name : String)
    (hnodup : ((before ++ (key, spec) :: after).map Prod.fst).Nodup)
    (hkey : key ≠ "__proto__")
    (hcond : conditionHolds key spec = .ok true)
    (hchain : spec.transformations = some (pre ++ .str name :: post))
    (hname : (transformations H).lookup name = none)
    (hcolon : containsStr [':'] name.data = false)
    (kept : List (String × FieldSpec Node))
    (hfilter : filterObject (before ++ (key, spec) :: after) conditionHolds = .ok kept) :
    extract H rootNode (before ++ (key, spec) :: after)
      = match extract H rootNode
            (before ++ [(key, { spec with transformations := some pre })]) with
        | .ok _ => .error (.thrown ("Transformation " ++ name ++ " not implemented"))
        | .error e => .error e := by
  generalize hspec1 : ({ spec with transformations := some pre } : FieldSpec Node) = spec1
  have hcond1 : conditionHolds key spec1 = .ok true := by
    rw [← hspec1]
    exact hcond
  have hne : before ++ (key, spec) :: after ≠ [] := by simp
  have hnodup1 : ((before ++ [(key, spec1)]).map Prod.fst).Nodup := by
    have hk : (before ++ (key, spec) :: after).map Prod.fst
        = (before ++ [(key, spec1)]).map Prod.fst ++ after.map Prod.fst := by
      simp
    rw [hk] at hnodup
    exact (List.nodup_append.mp hnodup).1
  have hown : ownCheck (before ++ (key, spec) :: after) = .ok true := by
    rcases ownCheck_cases (before ++ (key, spec) :: after) with h | ⟨e, h⟩
    · exact h
    · unfold filterObject at hfilter
      rw [filterLoop_ownCheck_error _ _ e h _ _ hne] at hfilter
      cases hfilter
  have hown1 : ownCheck (before ++ [(key, spec1)]) = .ok true := by
    have hk : (before ++ (key, spec) :: after).map Prod.fst
        = ((before ++ [(key, spec1)]) ++ after).map Prod.fst := by
      simp
    exact ownCheck_prefix _ after ((ownCheck_congr _ _ hk).mp hown)
  have hfe : firstError conditionHolds (before ++ (key, spec) :: after) = none := by
    unfold filterObject at hfilter
    rw [filterLoop_eq _ _ hown _ [] hnodup (fun _ _ q hq => absurd hq (List.not_mem_nil q))]
      at hfilter
    cases h : firstError conditionHolds (before ++ (key, spec) :: after) with
    | none => rfl
    | some e => rw [h] at hfilter; cases hfilter
  have hfe1 : firstError conditionHolds (before ++ [(key, spec1)]) = none := by
    apply firstError_prefix conditionHolds _ after
    rw [List.append_assoc, List.singleton_append,
      ← firstError_congr conditionHolds key spec spec1 (hcond.trans hcond1.symm) before after]
    exact hfe
  have hkeep : ∀ sp : FieldSpec Node, conditionHolds key sp = .ok true →
      keeps conditionHolds (key, sp) = true := by
    intro sp h
    simp [keeps, h, hkey]
  have hshape : (before ++ (key, spec) :: after).filter (keeps conditionHolds)
      = before.filter (keeps conditionHolds) ++ (key, spec) :: after.filter (keeps conditionHolds) := by
    rw [List.filter_append, List.filter_cons, hkeep spec hcond]
    rfl
  have hshape1 : (before ++ [(key, spec1)]).filter (keeps conditionHolds)
      = before.filter (keeps conditionHolds) ++ [(key, spec1)] := by
    rw [List.filter_append, List.filter_cons, hkeep spec1 hcond1]
    rfl
  have hF := ownCheck_filter _ (keeps conditionHolds) hown
  have hT := ownCheck_filter _ (keeps conditionHolds) hown1
  rw [hshape] at hF
  rw [hshape1] at hT
  unfold extract extractRun filterObject
  rw [filterLoop_eq _ _ hown _ [] hnodup (fun _ _ q hq => absurd hq (List.not_mem_nil q)), hfe,
    filterLoop_eq _ _ hown1 _ [] hnodup1 (fun _ _ q hq => absurd hq (List.not_mem_nil q)), hfe1]
  simp only [List.nil_append, hshape, hshape1, mapObject]
  generalize before.filter (keeps conditionHolds) = fb at hF hT ⊢
  generalize after.filter (keeps conditionHolds) = fa at hF ⊢
  rw [mapLoop_append, mapLoop_append, mapLoop_object _ _ _ hF hT fb [] _]
  cases hpre : mapLoop (fb ++ [(key, spec1)]) (extractFromDOM H rootNode) fb []
      (⟨⟨[], .objectPrototype⟩, []⟩ : ExtractState Node) with
  | mk r st1 =>
    cases r with
    | error e => rfl
    | ok acc1 =>
      simp only [mapLoop, hF, hT]
      rw [extractFromDOM_cut H rootNode key spec pre post name hchain hname hcolon st1, hspec1]
      cases hfield : extractFromDOM H rootNode key spec1 st1 with
      | mk r2 st2 =>
        cases r2 with
        | error e => rfl
        | ok w => rfl

/-- Claim C6, amended.  Let a configuration with distinct keys have a field,
under a key other than `__proto__`, that is not skipped and whose chain
contains a string that is neither a registry name nor contains a colon.  Then
`extract` returns no output mapping: the call fails with an exception.  When
nothing else fails first, the exception is the message
`Transformation <name> not implemented` for that string: that is, when the
filter pass over the whole configuration raises nothing and the fields before
this one, its selection and the steps of its chain before the string succeed
(the configuration that ends with this field, its chain cut just before the
string, extracts successfully), whatever the later fields' selectors and
chains are.  Otherwise the exception is that of the failure that comes first:
the one of the filter pass, or the one of the configuration that ends with the
cut field. -/
theorem extract_unknown_name (H : Host Node) (rootNode : Node)
    (before after : List (String × FieldSpec Node)) (key : String) (spec : FieldSpec Node)
    (pre post : List (Descriptor Node)) (name : String)
    (hnodup : ((before ++ (key, spec) :: after).map Prod.fst).Nodup)
    (hkey : key ≠ "__proto__")
    (hcond : conditionHolds key spec = .ok true)
    (hchain : spec.transformations = some (pre ++ .str name :: post))
    (hname : (transformations H).lookup name = none)
    (hcolon : containsStr [':'] name.data = false) :
    (∃ e, extract H rootNode (before ++ (key, spec) :: after) = .error e)
    ∧ ((∃ kept, filterObject (before ++ (key, spec) :: after) conditionHolds = .ok kept) →
        (∃ out, extract H rootNode
          (before ++ [(key, { spec with transformations := some pre })]) = .ok out) →
        extract H rootNode (before ++ (key, spec) :: after)
          = .error (.thrown ("Transformation " ++ name ++ " not implemented")))
    ∧ (∀ e, filterObject (before ++ (key, spec) :: after) conditionHolds = .error e →
        extract H rootNode (before ++ (key, spec) :: after) = .error e)
    ∧ (∀ e, (∃ kept, filterObject (before ++ (key, spec) :: after) conditionHolds = .ok kept) →
        extract H rootNode
          (before ++ [(key, { spec with transformations := some pre })]) = .error e →
        extract H rootNode (before ++ (key, spec) :: after) = .error e) := by
  have hfail : ∀ e, filterObject (before ++ (key, spec) :: after) conditionHolds = .error e →
      extract H rootNode (before ++ (key, spec) :: after) = .error e := by
    intro e he
    unfold extract extractRun
    rw [he]
  refine ⟨?_, ?_, hfail, ?_⟩
  · cases hfo : filterObject (before ++ (key, spec) :: after) conditionHolds with
    | error e => exact ⟨e, hfail e hfo⟩
    | ok kept =>
      rw [extract_cut H rootNode before after key spec pre post name hnodup hkey hcond hchain
        hname hcolon kept hfo]
      cases extract H rootNode (before ++ [(key, { spec with transformations := some pre })]) with
      | error e => exact ⟨e, rfl⟩
      | ok out => exact ⟨_, rfl⟩
  · rintro ⟨kept, hfo⟩ ⟨out, hout⟩
    rw [extract_cut H rootNode before after key spec pre post name hnodup hkey hcond hchain
      hname hcolon kept hfo, hout]
  · rintro e ⟨kept, hfo⟩ herr
    rw [extract_cut H rootNode before after key spec pre post name hnodup hkey hcond hchain
      hname hcolon kept hfo, herr]

/-- Claim C6 as stated fails: with two fields whose chains hold the unknown
names `nope` and `bogus`, the call fails with the message for `nope`, which
does not contain `bogus`. -/
theorem extract_unknown_name_counterexample :
    extract (exampleHost []) 0
        [("a", ⟨none, none, some [.str "nope"]⟩), ("b", ⟨none, none, some [.str "bogus"]⟩)]
      = .error (.thrown "Transformation nope not implemented")
    ∧ Err.thrown "Transformation nope not implemented"
        ≠ Err.thrown "Transformation bogus not implemented" := by
  exact ⟨rfl, by decide⟩

/-- Witness for `extract_unknown_name`: a field with the chain `toString`,
`bogus`, followed by a field whose chain holds the unknown name `nope`; the
call throws the message for `bogus`. -/
theorem extract_unknown_name_witness :
    extract (exampleHost []) 0
        [("b", ⟨none, none, some [.str "toString", .str "bogus"]⟩),
          ("c", ⟨none, none, some [.str "nope"]⟩)]
      = .error (.thrown "Transformation bogus not implemented") :=
  (extract_unknown_name (exampleHost []) 0 [] [("c", ⟨none, none, some [.str "nope"]⟩)] "b"
    ⟨none, none, some [.str "toString", .str "bogus"]⟩ [.str "toString"] [] "bogus"
    (by decide) (by decide) rfl rfl rfl rfl).2.1
    ⟨[("b", ⟨none, none, some [.str "toString", .str "bogus"]⟩),
      ("c", ⟨none, none, some [.str "nope"]⟩)], rfl⟩
    ⟨[("b", .str "[object Object]")], rfl⟩

/-- Claim C7, evaluated on the code: for the compound descriptor `bogus:1`
`parseTransformation` reads the missing registry property and calls `apply` on
undefined, so it raises a TypeError that does not carry the name, while the
bare name `bogus` in a chain raises `Transformation bogus not implemented`. -/
theorem parseTransformation_unknown_name (H : Host Node) (item : Val Node) :
    parseTransformation H "bogus:1" = .error (.typeError "Cannot read property 'apply' of undefined")
    ∧ applyTransformations H [.str "bogus:1"] item
        = .error (.typeError "Cannot read property 'apply' of undefined")
    ∧ applyTransformations H [.str "bogus"] item
        = .error (.thrown "Transformation bogus not implemented") := by
  exact ⟨rfl, rfl, rfl⟩

/-- Claim C8, evaluated on the code: `getIndex` with the index -1 applied to
the one-element array `["a"]` passes the test `array.length > index` and reads
`array[-1]`, so it returns undefined, not false. -/
theorem getIndex_negative_index (H : Host Node) :
    transformations.getIndex H (.str "-1") = .func (.getIndex (.fin (-1)))
    ∧ callFn H (.getIndex (.fin (-1))) (.arr [.str "a"]) = .ok .undefined
    ∧ applyDescriptor H "getIndex:-1" (.arr [.str "a"]) = .ok .undefined := by
  exact ⟨rfl, rfl, rfl⟩

/-- The pattern argument when the body has no slash.  For such a body and at
most four flag letters among g, i, m, y, the pattern argument `/body/flags` is
recognised and `replace` and `match` construct `new RegExp(body, flags)` for
it: the pattern
is that regular expression when the flags are distinct and the engine accepts
them, and the factory throws the constructor's syntax error otherwise (always
for a repeated flag).  A string `s` the recogniser rejects is kept as it is:
`replace` then substitutes the first literal occurrence of `s`, and `match`
hands `s` to `String.prototype.match`, which compiles it as the source of a
regular expression without flags. -/
theorem pattern_argument (H : Host Node) (body flags s text r : String)
    (replacement : Val Node)
    (hbody : '/' ∉ body.data) (hflags : ∀ c ∈ flags.data, isRegExpFlag c = true)
    (hlen : flags.data.length ≤ 4) (hs : stringIsRegExp s = false) :
    stringIsRegExp ("/" ++ body ++ "/" ++ flags) = true
    ∧ toRegExp H ("/" ++ body ++ "/" ++ flags) = newRegExp H body flags
    ∧ transformations.replace H (.str ("/" ++ body ++ "/" ++ flags)) replacement
        = (newRegExp H body flags).map (fun p => .func (.replace p replacement))
    ∧ transformations.match_ H (.str ("/" ++ body ++ "/" ++ flags))
        = (newRegExp H body flags).map (fun p => .func (.match_ p))
    ∧ (flags.data.Nodup → H.regExpOk body flags = true →
        newRegExp H body flags = .ok (.regexp body flags))
    ∧ (¬ flags.data.Nodup → ∃ e, newRegExp H body flags = .error e)
    ∧ transformations.replace H (.str s) replacement = .ok (.func (.replace (.str s) replacement))
    ∧ callFn H (.replace (.str s) (.str r)) (.str text)
        = .ok (.str (match findFirst s.data text.data [] with
            | none => text
            | some (before, after) =>
              String.mk (before ++ getSubstitution s.data before after r.data ++ after)))
    ∧ transformations.match_ H (.str s) = .ok (.func (.match_ (.str s)))
    ∧ callFn H (.match_ (.str s)) (.str text)
        = if H.regExpOk s "" then .ok (H.matchRegExp s "" text) else .error (.syntaxError s) := by
  have hp : ("/" ++ body ++ "/" ++ flags).data = '/' :: (body.data ++ '/' :: flags.data) := by
    simp [String.data_append]
  have hlit : stringIsRegExp ("/" ++ body ++ "/" ++ flags) = true :=
    stringIsRegExp_literal _ body.data flags.data hp hflags hlen
  have hre := toRegExp_literal H body flags hbody hflags
  refine ⟨hlit, hre, ?_, ?_, ?_, ?_, ?_, ?_, ?_, ?_⟩
  · simp only [transformations.replace, transformations.patternOf, hlit, if_true, hre]
  · simp only [transformations.match_, transformations.patternOf, hlit, if_true, hre]
  · intro hnd hok
    rw [newRegExp, if_pos ⟨hnd, hok⟩]
  · intro hnd
    refine ⟨.syntaxError ("/" ++ body ++ "/" ++ flags), ?_⟩
    rw [newRegExp, if_neg (fun h => hnd h.1)]
  · simp [transformations.replace, transformations.patternOf, hs, Except.map]
  · simp only [callFn, jsReplace, toStr]
    cases findFirst s.data text.data [] with
    | none => rfl
    | some p => rfl
  · simp [transformations.match_, transformations.patternOf, hs, Except.map]
  · rfl

/-- Two recognised literals on the example host: `/a//` (body `a/`, no
flags), for which `toRegExp` builds the expression with source `a`; and
`/a/gg` (flags `gg`), for which no regular expression is built, the
constructor throws. -/
theorem pattern_argument_counterexample :
    stringIsRegExp "/a//" = true
    ∧ toRegExp (exampleHost []) "/a//" = .ok (.regexp "a" "")
    ∧ ("a" : String) ≠ "a/"
    ∧ stringIsRegExp "/a/gg" = true
    ∧ toRegExp (exampleHost []) "/a/gg" = .error (.syntaxError "/a/gg") := by
  exact ⟨by decide, rfl, by decide, by decide, rfl⟩

/-- Witness for `pattern_argument`: body `a+` with flag `g`, and the literal
pattern `a+`, which replaces the text `a+` inside `caa+t`. -/
theorem pattern_argument_witness :
    transformations.replace (exampleHost []) (.str "/a+/g") (.str "b")
      = .ok (.func (.replace (.regexp "a+" "g") (.str "b")))
    ∧ callFn (exampleHost []) (.replace (.str "a+") (.str "b")) (.str "caa+t")
      = .ok (.str "cabt") :=
  have h := pattern_argument (exampleHost []) "a+" "g" "a+" "caa+t" "b" (.str "b")
    (by decide) (by decide) (by decide) (by decide)
  ⟨h.2.2.1.trans rfl, h.2.2.2.2.2.2.2.1.trans rfl⟩

/-- Claim C9, evaluated on the code: a body that contains a slash is
recognised by `stringIsRegExp` but cut short by `toRegExp`, which splits the
string on every slash.  For the pattern argument `/a//` (body `a/`, no flags)
`toRegExp`, `replace` and `match` construct `new RegExp("a", "")`, so the
pattern is never the regular expression with source `a/`; for `/a\/b/g` (body
`a\/b`, flags `g`) they construct `new RegExp("a\\", "b")`, so the pattern is
never the regular expression with source `a\/b` and flags `g`. -/
theorem toRegExp_slash_in_body (H : Host Node) (replacement : Val Node) :
    stringIsRegExp "/a//" = true
    ∧ toRegExp H "/a//" = newRegExp H "a" ""
    ∧ toRegExp H "/a//" ≠ .ok (.regexp "a/" "")
    ∧ transformations.replace H (.str "/a//") replacement
        = (newRegExp H "a" "").map (fun p => .func (.replace p replacement))
    ∧ transformations.match_ H (.str "/a//")
        = (newRegExp H "a" "").map (fun p => .func (.match_ p))
    ∧ stringIsRegExp "/a\\/b/g" = true
    ∧ toRegExp H "/a\\/b/g" = newRegExp H "a\\" "b"
    ∧ toRegExp H "/a\\/b/g" ≠ .ok (.regexp "a\\/b" "g")
    ∧ transformations.replace H (.str "/a\\/b/g") replacement
        = (newRegExp H "a\\" "b").map (fun p => .func (.replace p replacement))
    ∧ transformations.match_ H (.str "/a\\/b/g")
        = (newRegExp H "a\\" "b").map (fun p => .func (.match_ p)) := by
  have h1 : toRegExp H "/a//" = newRegExp H "a" "" := rfl
  have h2 : toRegExp H "/a\\/b/g" = newRegExp H "a\\" "b" := rfl
  have hne : ∀ (src fl src1 fl1 : String), src ≠ src1 →
      newRegExp H src fl ≠ .ok (.regexp src1 fl1) := by
    intro src fl src1 fl1 hsrc h
    unfold newRegExp at h
    split at h
    · simp only [Except.ok.injEq, Val.regexp.injEq] at h
      exact hsrc h.1
    · cases h
  refine ⟨by decide, h1, ?_, rfl, rfl, by decide, h2, ?_, rfl, rfl⟩
  · rw [h1]
    exact hne _ _ _ _ (by decide)
  · rw [h2]
    exact hne _ _ _ _ (by decide)

/-- Claim C10: chain application is order-sensitive.  On every string `s` the
chain `toInt`, `trim` yields false (the number from `toInt` is not a string),
and the chain `trim`, `toInt` yields `parseInt` in base 10 of the trimmed `s`;
on the string "  42 " these are false and 42. -/
theorem chain_order_sensitive (H : Host Node) (s : String) :
    applyTransformations H [.str "toInt", .str "trim"] (.str s) = .ok (.bool false)
    ∧ applyTransformations H [.str "trim", .str "toInt"] (.str s)
        = .ok (.num (parseInt10 (jsTrim s)))
    ∧ applyTransformations H [.str "trim", .str "toInt"] (.str "  42 ") = .ok (.num (.fin 42))
    ∧ applyTransformations H [.str "toInt", .str "trim"] (.str "  42 ") = .ok (.bool false) := by
  exact ⟨rfl, rfl, rfl, rfl⟩

/-! ### Claims C11 to C20, with the lemmas they rest on -/

/-- Claim C11: a type mismatch raises nothing and yields exactly false.  For
every input `x` that is not a string, `toInt`, `toFloat` and `trim` return
false, and so does every transformation that `split`, `replace` or `match`
produce, whatever their construction arguments; for every input `y` that is
not a number, `round` returns false and so does every transformation that
`multiplyBy` produces. -/
theorem type_mismatch_yields_false (H : Host Node) (x y : Val Node)
    (hx : isString x = false) (hy : isNumber y = false) :
    transformations.toInt x = .bool false
    ∧ transformations.toFloat H x = .bool false
    ∧ transformations.trim x = .bool false
    ∧ (∀ delimeter limit : Val Node,
        call H (transformations.split H delimeter limit) x = .ok (.bool false))
    ∧ (∀ (pattern replacement t : Val Node),
        transformations.replace H pattern replacement = .ok t →
          call H t x = .ok (.bool false))
    ∧ (∀ (pattern t : Val Node),
        transformations.match_ H pattern = .ok t → call H t x = .ok (.bool false))
    ∧ transformations.round H y = .bool false
    ∧ (∀ factor : Val Node,
        call H (transformations.multiplyBy factor) y = .ok (.bool false)) := by
  refine ⟨?_, ?_, ?_, ?_, ?_, ?_, ?_, ?_⟩
  · cases x <;> simp_all [transformations.toInt, isString]
  · cases x <;> simp_all [transformations.toFloat, isString]
  · cases x <;> simp_all [transformations.trim, isString]
  · intro delimeter limit
    have hsplit : ∃ l, transformations.split H delimeter limit = .func (.split delimeter l) := by
      unfold transformations.split
      split
      · exact ⟨_, rfl⟩
      · exact ⟨_, rfl⟩
    obtain ⟨l, hl⟩ := hsplit
    rw [hl]
    cases x <;> simp_all [call, callFn, isString]
  · intro pattern replacement t ht
    unfold transformations.replace at ht
    cases hp : transformations.patternOf H pattern with
    | error e => rw [hp] at ht; simp [Except.map] at ht
    | ok p =>
      rw [hp] at ht
      simp only [Except.map, Except.ok.injEq] at ht
      subst ht
      cases x <;> simp_all [call, callFn, isString]
  · intro pattern t ht
    unfold transformations.match_ at ht
    cases hp : transformations.patternOf H pattern with
    | error e => rw [hp] at ht; simp [Except.map] at ht
    | ok p =>
      rw [hp] at ht
      simp only [Except.map, Except.ok.injEq] at ht
      subst ht
      cases x <;> simp_all [call, callFn, isString]
  · cases y <;> simp_all [transformations.round, isNumber]
  · intro factor
    cases y <;> simp_all [call, callFn, transformations.multiplyBy, isNumber]

/-- Witness for `type_mismatch_yields_false`: the number 42 where a string is
expected and the string `42` where a number is expected. -/
theorem type_mismatch_yields_false_witness :
    transformations.trim (.num (.fin 42) : Val Nat) = .bool false
    ∧ transformations.round (exampleHost []) (.str "42") = .bool false :=
  have h := type_mismatch_yields_false (exampleHost []) (.num (.fin 42)) (.str "42") rfl rfl
  ⟨h.2.2.1, h.2.2.2.2.2.2.1⟩

/-- Every node transformation returns null on null, without raising. -/
theorem node_transformations_null (H : Host Node) (arg : Val Node) :
    transformations.innerHTML H .null = .null
    ∧ transformations.innerText H .null = .null
    ∧ transformations.value H .null = .null
    ∧ call H (transformations.querySelector arg) .null = .ok .null
    ∧ call H (transformations.querySelectorAll arg) .null = .ok .null
    ∧ call H (transformations.getAttribute arg) .null = .ok .null := by
  exact ⟨rfl, rfl, rfl, rfl, rfl, rfl⟩

/-- Claim C12, evaluated on the code: two fields whose selectors,
`hasOwnProperty` and `p`, match nothing.  The first result is stored in the
memo under the key `hasOwnProperty`, where it hides the method of that name, so
the lookup for the second field raises a TypeError and `extract` returns no
mapping.  And a single field whose selector `__proto__` matches nothing gets
the value undefined, not null: the assignment to the memo sets its prototype
to null and the read finds nothing. -/
theorem extract_missing_selection (H : Host Node) (rootNode : Node)
    (hown : H.querySelector rootNode "hasOwnProperty" = .ok none)
    (hproto : H.querySelector rootNode "__proto__" = .ok none) :
    extract H rootNode
        [("a", ⟨none, some "hasOwnProperty", some [.str "innerHTML"]⟩),
         ("b", ⟨none, some "p", some [.str "innerHTML"]⟩)]
      = .error (.typeError "memoizedSelections.hasOwnProperty is not a function")
    ∧ extract H rootNode [("a", ⟨none, some "__proto__", some [.str "innerHTML"]⟩)]
      = .ok [("a", .undefined)] := by
  constructor
  · simp [extract, extractRun, filterObject, filterLoop, ownCheck, conditionHolds,
      assignProperty, setOwn, mapObject, mapLoop, extractFromDOM, select, memoized,
      Memo.hasOwnProperty, Memo.set, Memo.get, hown, applyTransformations, transformations,
      List.lookup, Descriptor.key, transformations.innerHTML, argAt, truthy]
  · simp [extract, extractRun, filterObject, filterLoop, ownCheck, conditionHolds,
      assignProperty, setOwn, mapObject, mapLoop, extractFromDOM, select, memoized,
      Memo.hasOwnProperty, Memo.set, Memo.get, hproto, applyTransformations, transformations,
      List.lookup, Descriptor.key, transformations.innerHTML, argAt, truthy]

/-- Witness for `extract_missing_selection`: the empty example document. -/
theorem extract_missing_selection_witness :
    (exampleHost []).querySelector 0 "hasOwnProperty" = .ok none
    ∧ extract (exampleHost []) 0
        [("a", ⟨none, some "hasOwnProperty", some [.str "innerHTML"]⟩),
         ("b", ⟨none, some "p", some [.str "innerHTML"]⟩)]
      = .error (.typeError "memoizedSelections.hasOwnProperty is not a function") :=
  ⟨rfl, (extract_missing_selection (exampleHost []) 0 rfl rfl).1⟩

/-- Claim C13: end to end.  When the first descendant of the root matching
`.title` is a node whose text, read as `innerText` or else `textContent`, is
the string `t`, the configuration with the single field `title`, selector
`.title` and chain `innerText`, `trim` is extracted to the mapping with the
single key `title` and the value `t` without its leading and trailing white
space. -/
theorem extract_title (H : Host Node) (rootNode n : Node) (t : String)
    (hfirst : H.querySelector rootNode ".title" = .ok (some n))
    (htext : (H.innerText n = .str t ∧ t ≠ "")
      ∨ (truthy (H.innerText n) = false ∧ H.textContent n = .str t)) :
    extract H rootNode
        [("title", ⟨none, some ".title", some [.str "innerText", .str "trim"]⟩)]
      = .ok [("title", .str (jsTrim t))] := by
  have hinner : transformations.innerText H (.node n) = .str t := by
    have hn : truthy (Val.node n : Val Node) = true := rfl
    rcases htext with ⟨h1, h2⟩ | ⟨h1, h2⟩
    · have ht : truthy (Val.str t : Val Node) = true := by simp [truthy, h2]
      simp [transformations.innerText, hn, h1, ht]
    · simp [transformations.innerText, hn, h1, h2]
  have hchain : applyTransformations H [.str "innerText", .str "trim"] (.node n)
      = .ok (.str (jsTrim t)) := by
    have h1 : applyTransformations H [.str "innerText", .str "trim"] (.node n)
        = applyTransformations H [.str "trim"] (transformations.innerText H (.node n)) := rfl
    rw [h1, hinner]
    rfl
  simp [extract, extractRun, filterObject, filterLoop, ownCheck, conditionHolds,
      assignProperty, setOwn, mapObject, mapLoop, extractFromDOM, select, memoized,
      Memo.hasOwnProperty, Memo.set, Memo.get, hfirst, hchain, List.lookup]

/-- Witness for `extract_title`: a document whose only element has the class
`title` and the text "  Hello World  ". -/
theorem extract_title_witness :
    extract (exampleHost [⟨1, "h1", "title", "  Hello World  "⟩]) 0
        [("title", ⟨none, some ".title", some [.str "innerText", .str "trim"]⟩)]
      = .ok [("title", .str "Hello World")] :=
  (extract_title (exampleHost [⟨1, "h1", "title", "  Hello World  "⟩]) 0 1 "  Hello World  "
    rfl (Or.inl ⟨rfl, by decide⟩)).trans rfl

/-- The own-property check ignores a property under another key than
`hasOwnProperty`. -/
theorem ownCheck_skip {α : Type} (l1 l2 : List (String × α)) (k : String) (v : α)
    (hk : k ≠ "hasOwnProperty") : ownCheck (l1 ++ (k, v) :: l2) = ownCheck (l1 ++ l2) := by
  have hany : (l1 ++ (k, v) :: l2).any (fun p => decide (p.1 = "hasOwnProperty"))
      = (l1 ++ l2).any (fun p => decide (p.1 = "hasOwnProperty")) := by
    rw [List.any_append, List.any_append, List.any_cons, decide_eq_false hk, Bool.false_or]
  unfold ownCheck
  rw [hany]

/-- A property on which the callback answers without raising does not change
the first exception. -/
theorem firstError_skip {α : Type} (func : String → α → Except Err Bool) (k : String) (v : α)
    (b : Bool) (hv : func k v = .ok b) (l1 l2 : List (String × α)) :
    firstError func (l1 ++ (k, v) :: l2) = firstError func (l1 ++ l2) := by
  induction l1 with
  | nil => simp only [List.nil_append, firstError, hv]
  | cons p rest ih =>
    simp only [List.cons_append, firstError]
    cases func p.1 p.2 with
    | error e => rfl
    | ok b => exact ih

/-- A field whose condition evaluates false, under another key than
`hasOwnProperty`, changes nothing: the call runs exactly as for the
configuration without the field, with the same result and the same queries. -/
theorem extractRun_skipped_field (H : Host Node) (rootNode : Node)
    (before after : List (String × FieldSpec Node)) (key : String) (spec : FieldSpec Node)
    (hnodup : ((before ++ (key, spec) :: after).map Prod.fst).Nodup)
    (hkey : key ≠ "hasOwnProperty")
    (hcond : conditionHolds key spec = .ok false) :
    extractRun H rootNode (before ++ (key, spec) :: after)
      = extractRun H rootNode (before ++ after) := by
  have hnodup1 : ((before ++ after).map Prod.fst).Nodup := by
    simp only [List.map_append, List.map_cons] at hnodup ⊢
    exact hnodup.sublist (List.Sublist.append_left (List.sublist_cons_self _ _) _)
  have hfilter : filterObject (before ++ (key, spec) :: after) conditionHolds
      = filterObject (before ++ after) conditionHolds := by
    unfold filterObject
    have hoc := ownCheck_skip before after key spec hkey
    rcases ownCheck_cases (before ++ after) with hown | ⟨e, hown⟩
    · rw [filterLoop_eq _ _ (hoc.trans hown) _ [] hnodup
          (fun _ _ q hq => absurd hq (List.not_mem_nil q)),
        filterLoop_eq _ _ hown _ [] hnodup1 (fun _ _ q hq => absurd hq (List.not_mem_nil q)),
        firstError_skip conditionHolds key spec false hcond before after]
      have hkeep : keeps conditionHolds (key, spec) = false := by simp [keeps, hcond]
      rw [List.filter_append, List.filter_cons, hkeep, List.filter_append]
      rfl
    · have hne : before ++ after ≠ [] := by
        intro h
        rw [h] at hown
        simp [ownCheck] at hown
      rw [filterLoop_ownCheck_error _ _ e (hoc.trans hown) _ _ (by simp),
        filterLoop_ownCheck_error _ _ e hown _ _ hne]
  unfold extractRun
  rw [hfilter]

/-- Claim C14, evaluated on the code: a configuration whose only field has
the key `hasOwnProperty`, a condition that evaluates false and the unresolvable
descriptor `bogus`.  The field should be skipped, but the own property hides
the method `object.hasOwnProperty` that `filterObject` calls, so `extract`
fails with a TypeError, while the configuration without the field gives the
empty mapping. -/
theorem extract_skipped_hasOwnProperty (H : Host Node) (rootNode : Node) :
    conditionHolds "hasOwnProperty"
        (⟨some (.ok (.bool false)), none, some [.str "bogus"]⟩ : FieldSpec Node) = .ok false
    ∧ extract H rootNode
        [("hasOwnProperty", ⟨some (.ok (.bool false)), none, some [.str "bogus"]⟩)]
      = .error (.typeError "object.hasOwnProperty is not a function")
    ∧ extract H rootNode [] = .ok [] := by
  exact ⟨rfl, rfl, rfl⟩

/-- Claim C17: `applyTransformations` is a left-to-right fold.  The empty
chain returns the item unchanged; when the chain `ts` succeeds on `x` with the
result `y`, the chain `ts ++ us` applied to `x` is the chain `us` applied to
`y`, with the same result or the same exception; and when `ts` fails on `x`,
`ts ++ us` fails with the same exception. -/
theorem applyTransformations_fold (H : Host Node) (ts us : List (Descriptor Node))
    (x y : Val Node) (hts : applyTransformations H ts x = .ok y) :
    applyTransformations H [] x = .ok x
    ∧ applyTransformations H (ts ++ us) x = applyTransformations H us y
    ∧ (∀ (x1 : Val Node) (e : Err), applyTransformations H ts x1 = .error e →
        applyTransformations H (ts ++ us) x1 = .error e) := by
  refine ⟨rfl, ?_, ?_⟩
  · rw [applyTransformations_append, hts]
  · intro x1 e he
    rw [applyTransformations_append, he]

/-- Witness for `applyTransformations_fold`: the chain `trim` followed by the
chain `toInt` on the string "  42 ". -/
theorem applyTransformations_fold_witness :
    applyTransformations (exampleHost []) ([.str "trim"] ++ [.str "toInt"]) (.str "  42 ")
      = .ok (.num (.fin 42)) :=
  (applyTransformations_fold (exampleHost []) [.str "trim"] [.str "toInt"] (.str "  42 ")
    (.str "42") rfl).2.1.trans rfl

/-- Truncating a natural number, taken as a rational, gives it back. -/
theorem truncate_natCast (i : Nat) : truncate (i : Rat) = (i : Int) := by
  simp [truncate]

/-- The relative index of a natural number within the length is the number. -/
theorem relativeIndex_natCast (len i : Nat) (hi : i ≤ len) :
    relativeIndex len (.fin (i : Rat)) = i := by
  simp [relativeIndex, truncate_natCast, hi]

/-- The relative index of a natural number is the number, clamped to the
length. -/
theorem relativeIndex_natCast_min (len i : Nat) :
    relativeIndex len (.fin (i : Rat)) = min i len := by
  simp [relativeIndex, truncate_natCast]

/-- Slicing from one natural index up to another drops and takes. -/
theorem jsSlice_natCast {α : Type} (xs : List α) (i j : Nat) :
    jsSlice xs (.fin (i : Rat)) (some (.fin (j : Rat))) = (xs.drop i).take (j - i) := by
  simp only [jsSlice, relativeIndex_natCast_min]
  by_cases hi : xs.length ≤ i
  · rw [List.drop_eq_nil_of_le hi, List.drop_eq_nil_of_le (by simp [hi])]
    simp
  · have hi1 : i ≤ xs.length := Nat.le_of_lt (Nat.lt_of_not_le hi)
    rw [Nat.min_eq_left hi1]
    by_cases hj : j ≤ xs.length
    · rw [Nat.min_eq_left hj]
    · have hj1 : xs.length ≤ j := Nat.le_of_lt (Nat.lt_of_not_le hj)
      rw [Nat.min_eq_right hj1, List.take_of_length_le (by simp),
        List.take_of_length_le (by simp; omega)]

/-- Slicing from a natural index without an end drops. -/
theorem jsSlice_natCast_none {α : Type} (xs : List α) (i : Nat) :
    jsSlice xs (.fin (i : Rat)) none = xs.drop i := by
  simp only [jsSlice, relativeIndex_natCast_min]
  by_cases hi : xs.length ≤ i
  · rw [List.drop_eq_nil_of_le hi, List.drop_eq_nil_of_le (by simp [hi])]
    simp
  · have hi1 : i ≤ xs.length := Nat.le_of_lt (Nat.lt_of_not_le hi)
    rw [Nat.min_eq_left hi1, List.take_of_length_le (by simp)]

/-- The transformation `slice(start, stop)` with a given `stop` calls the
slice operation of its item with both parsed bounds. -/
theorem slice_given_stop (H : Host Node) (start stop : Val Node) (hstop : stop ≠ .undefined) :
    transformations.slice H start stop
      = .func (.slice (parseInt10 (toStr H start)) (some (parseInt10 (toStr H stop)))) := by
  cases stop <;> first | rfl | exact absurd rfl hstop

/-- Claim C16: `slice` has no type guard, unlike `getIndex`.  For all
arguments `start` and `stop` that `parseInt` reads as the indices `i` and `j`,
the transformation `slice(start, stop)` maps an array to its elements from
index `i` up to but not including `j`, and `slice(start)` maps it to its
elements from `i` to the end; on a string (of the Basic Multilingual Plane,
where characters are code units) they return the corresponding substring.  For
all arguments whatever, the result on an array is `Array.prototype.slice` of it
with the parsed bounds, and on false and on null the transformation raises a
TypeError instead of returning false, where the transformation of `getIndex`
returns false. -/
theorem slice_unguarded (H : Host Node) (start stop : Val Node) (a : List (Val Node))
    (s : String) (i j : Nat)
    (hstart : parseInt10 (toStr H start) = .fin (i : Rat))
    (hstop : parseInt10 (toStr H stop) = .fin (j : Rat))
    (hbmp : s.data.all isBMP = true) :
    call H (transformations.slice H start stop) (.arr a) = .ok (.arr ((a.drop i).take (j - i)))
    ∧ call H (transformations.slice H start .undefined) (.arr a) = .ok (.arr (a.drop i))
    ∧ call H (transformations.slice H start stop) (.str s)
        = .ok (.str (String.mk ((s.data.drop i).take (j - i))))
    ∧ call H (transformations.slice H start .undefined) (.str s)
        = .ok (.str (String.mk (s.data.drop i)))
    ∧ (∀ (b e : Val Node) (xs : List (Val Node)), e ≠ .undefined →
        call H (transformations.slice H b e) (.arr xs)
          = .ok (.arr (jsSlice xs (parseInt10 (toStr H b)) (some (parseInt10 (toStr H e))))))
    ∧ (∀ (b : Val Node) (xs : List (Val Node)),
        call H (transformations.slice H b .undefined) (.arr xs)
          = .ok (.arr (jsSlice xs (parseInt10 (toStr H b)) none)))
    ∧ (∀ b e : Val Node, call H (transformations.slice H b e) (.bool false)
        = .error (.typeError "Cannot read property 'apply' of undefined"))
    ∧ (∀ b e : Val Node, call H (transformations.slice H b e) .null
        = .error (.typeError "Cannot read property 'slice' of null"))
    ∧ (∀ index : Val Node,
        call H (transformations.getIndex H index) (.bool false) = .ok (.bool false))
    ∧ (∀ index : Val Node,
        call H (transformations.getIndex H index) .null = .ok (.bool false)) := by
  have hdef : stop ≠ .undefined := by
    intro h
    rw [h] at hstop
    exact absurd hstop (by simp [toStr, parseInt10, trimStart, isWhiteSpace])
  refine ⟨?_, ?_, ?_, ?_, ?_, fun _ _ => rfl, ?_, ?_, fun _ => rfl, fun _ => rfl⟩
  · rw [slice_given_stop H start stop hdef, hstart, hstop]
    simp only [call, callFn, jsSlice_natCast]
  · simp only [transformations.slice, hstart, call, callFn, jsSlice_natCast_none]
  · rw [slice_given_stop H start stop hdef, hstart, hstop]
    simp only [call, callFn, sliceString, hbmp, if_true, jsSlice_natCast]
  · simp only [transformations.slice, hstart, call, callFn, sliceString, hbmp, if_true,
      jsSlice_natCast_none]
  · intro b e xs he
    rw [slice_given_stop H b e he]
    rfl
  · intro b e
    cases e <;> rfl
  · intro b e
    cases e <;> rfl

/-- Witness for `slice_unguarded`: `slice("1", "3")` gives the elements at the
indices 1 and 2 of a four-element array, and the substring `bc` of `abcd`. -/
theorem slice_unguarded_witness :
    call (exampleHost []) (transformations.slice (exampleHost []) (.str "1") (.str "3"))
        (.arr [.str "a", .str "b", .str "c", .str "d"])
      = .ok (.arr [.str "b", .str "c"])
    ∧ call (exampleHost []) (transformations.slice (exampleHost []) (.str "1") (.str "3"))
        (.str "abcd") = .ok (.str "bc") :=
  have h := slice_unguarded (exampleHost []) (.str "1") (.str "3")
    [.str "a", .str "b", .str "c", .str "d"] "abcd" 1 3 rfl rfl (by decide)
  ⟨h.1, h.2.2.1⟩

/-- A guarded closure returns false on false. -/
theorem callFn_guarded_false (H : Host Node) (f : Fn Node) (hf : f.guarded = true) :
    callFn H f (.bool false) = .ok (.bool false) := by
  cases f <;> first | rfl | simp [Fn.guarded] at hf

/-- Claim C19: the sentinel false is absorbing for guarded steps.  For every
chain whose elements are bare names among `innerHTML`, `innerText`, `value`,
`toInt`, `toFloat`, `round`, `trim` or descriptors that `parseTransformation`
turns into a closure of `querySelector`, `querySelectorAll`, `getAttribute`,
`multiplyBy`, `split`, `replace`, `match` or `getIndex`, the chain applied to
false returns false and raises nothing; the step `toString` turns false into
the string `false`. -/
theorem guarded_chain_false (H : Host Node) (chain : List (Descriptor Node))
    (hchain : ∀ d ∈ chain, GuardedStep H d) :
    applyTransformations H chain (.bool false) = .ok (.bool false)
    ∧ applyTransformations H [.str "toString"] (.bool false) = .ok (.str "false") := by
  refine ⟨?_, rfl⟩
  induction chain with
  | nil => rfl
  | cons d rest ih =>
    have hrest := ih (fun d hd => hchain d (List.mem_cons_of_mem _ hd))
    obtain ⟨s, hd, hs⟩ := hchain d (List.mem_cons_self _ _)
    subst hd
    rcases hs with hbare | ⟨hlookup, hcolon, f, hparse, hf⟩
    · have hstep : applyTransformations H (.str s :: rest) (.bool false)
          = applyTransformations H rest (.bool false) := by
        simp only [List.mem_cons, List.mem_singleton, List.not_mem_nil, or_false] at hbare
        rcases hbare with h | h | h | h | h | h | h <;> subst h <;> rfl
      rw [hstep, hrest]
    · simp only [applyTransformations, Descriptor.key, hlookup, indexOfColon, hcolon, hparse,
        call, callFn_guarded_false H f hf, hrest]

/-- Witness for `guarded_chain_false`: the chain `trim`, `split:;`,
`getIndex:0`, `innerText`. -/
theorem guarded_chain_false_witness :
    applyTransformations (exampleHost [])
        [.str "trim", .str "split:;", .str "getIndex:0", .str "innerText"] (.bool false)
      = .ok (.bool false) :=
  (guarded_chain_false (exampleHost [])
    [.str "trim", .str "split:;", .str "getIndex:0", .str "innerText"]
    (by
      intro d hd
      simp only [List.mem_cons, List.mem_singleton, List.not_mem_nil, or_false] at hd
      rcases hd with h | h | h | h <;> subst h
      · exact ⟨"trim", rfl, Or.inl (by decide)⟩
      · exact ⟨"split:;", rfl, Or.inr ⟨rfl, rfl, _, rfl, rfl⟩⟩
      · exact ⟨"getIndex:0", rfl, Or.inr ⟨rfl, rfl, _, rfl, rfl⟩⟩
      · exact ⟨"innerText", rfl, Or.inl (by decide)⟩)).1

/-- Claim C20 as stated fails: the bare name `replace` applied to the item
`/a/gg`, a string of the regex-literal form with a repeated flag, raises the
syntax error of the `RegExp` constructor. -/
theorem bare_factory_name_counterexample :
    applyTransformations (exampleHost []) [.str "replace"] (.str "/a/gg")
      = .error (.syntaxError "/a/gg")
    ∧ applyTransformations (exampleHost []) [.str "match"] (.str "/a/gg")
      = .error (.syntaxError "/a/gg") := by
  exact ⟨rfl, rfl⟩

/-- Claim C20, amended.  A chain element that is the bare name of a
parameterized registry entry takes the exact-name branch, which calls the
factory with the current item as its only argument.  For `querySelector`,
`querySelectorAll`, `getAttribute`, `multiplyBy`, `split`, `getIndex` and
`slice` the step raises nothing and its result is the closure that captured
the item.  For `replace` and `match` the result is the closure that captured
the pattern made from the item, which is the item itself unless it is a string
of the regex-literal form; such a string is compiled at once with `toRegExp`,
and the step raises the constructor's syntax error when that fails. -/
theorem bare_factory_name (H : Host Node) (item : Val Node) :
    applyTransformations H [.str "querySelector"] item = .ok (.func (.querySelector item))
    ∧ applyTransformations H [.str "querySelectorAll"] item
        = .ok (.func (.querySelectorAll item))
    ∧ applyTransformations H [.str "getAttribute"] item = .ok (.func (.getAttribute item))
    ∧ applyTransformations H [.str "multiplyBy"] item = .ok (.func (.multiplyBy item))
    ∧ applyTransformations H [.str "split"] item = .ok (.func (.split item none))
    ∧ applyTransformations H [.str "getIndex"] item
        = .ok (.func (.getIndex (parseInt10 (toStr H item))))
    ∧ applyTransformations H [.str "slice"] item
        = .ok (.func (.slice (parseInt10 (toStr H item)) none))
    ∧ applyTransformations H [.str "replace"] item
        = (transformations.patternOf H item).map (fun p => .func (.replace p .undefined))
    ∧ applyTransformations H [.str "match"] item
        = (transformations.patternOf H item).map (fun p => .func (.match_ p))
    ∧ (∀ s : String, item = .str s → stringIsRegExp s = true →
        transformations.patternOf H item = toRegExp H s)
    ∧ ((∀ s : String, item = .str s → stringIsRegExp s = false) →
        transformations.patternOf H item = .ok item) := by
  refine ⟨rfl, rfl, rfl, rfl, rfl, rfl, rfl, ?_, ?_, ?_, ?_⟩
  · have h : applyTransformations H [.str "replace"] item
        = match transformations.replace H item .undefined with
          | .ok item1 => .ok item1
          | .error e => .error e := rfl
    rw [h, transformations.replace]
    cases transformations.patternOf H item <;> rfl
  · have h : applyTransformations H [.str "match"] item
        = match transformations.match_ H item with
          | .ok item1 => .ok item1
          | .error e => .error e := rfl
    rw [h, transformations.match_]
    cases transformations.patternOf H item <;> rfl
  · intro s hs hre
    subst hs
    simp [transformations.patternOf, hre]
  · intro hs
    cases item with
    | str s => simp [transformations.patternOf, hs s rfl]
    | _ => rfl

/-- Joining a non-empty tail after a head puts the separator between them. -/
theorem joinChars_cons (sep a : List Char) (l : List (List Char)) (hl : l ≠ []) :
    joinChars sep (a :: l) = a ++ sep ++ joinChars sep l := by
  cases l with
  | nil => exact absurd rfl hl
  | cons b rest => rfl

/-- A prefix of the first piece can be taken out of the join. -/
theorem joinChars_append_head (sep x y : List Char) (l : List (List Char)) :
    joinChars sep ((x ++ y) :: l) = x ++ joinChars sep (y :: l) := by
  cases l with
  | nil => rfl
  | cons b rest => simp [joinChars, List.append_assoc]

/-- The loop of `String.intercalate`, on the level of characters. -/
theorem intercalate_go_data (s : String) (l : List String) :
    ∀ acc : String, (String.intercalate.go acc s l).data
      = joinChars s.data (acc.data :: l.map String.data) := by
  induction l with
  | nil => intro acc; rfl
  | cons a rest ih =>
    intro acc
    rw [String.intercalate.go, ih]
    simp only [String.data_append, List.map_cons, List.append_assoc]
    rw [joinChars_append_head, joinChars_append_head]
    rw [joinChars_cons s.data acc.data _ (List.cons_ne_nil _ _)]
    simp [List.append_assoc]

/-- The function `String.intercalate`, on the level of characters. -/
theorem intercalate_data (s : String) (l : List String) :
    (s.intercalate l).data = joinChars s.data (l.map String.data) := by
  cases l with
  | nil => rfl
  | cons a rest => exact intercalate_go_data s rest a

/-- Splitting never gives an empty list of pieces. -/
theorem splitOnAux_ne_nil (sep : List Char) :
    ∀ (xs cur : List Char) (skip : Nat), splitOnAux sep xs cur skip ≠ [] := by
  intro xs
  induction xs with
  | nil => intro cur skip; simp [splitOnAux]
  | cons x rest ih =>
    intro cur skip
    cases skip with
    | succ k => simp only [splitOnAux]; exact ih _ _
    | zero =>
      simp only [splitOnAux]
      split
      · exact List.cons_ne_nil _ _
      · exact ih _ _

/-- Joining the pieces of a text split on a character gives the text back. -/
theorem joinChars_splitOnAux (c : Char) :
    ∀ xs cur : List Char, joinChars [c] (splitOnAux [c] xs cur 0) = cur.reverse ++ xs := by
  intro xs
  induction xs with
  | nil => intro cur; simp [splitOnAux, joinChars]
  | cons x rest ih =>
    intro cur
    by_cases hx : c = x
    · subst hx
      have hs : splitOnAux [c] (c :: rest) cur 0 = cur.reverse :: splitOnAux [c] rest [] 0 := by
        simp [splitOnAux, startsWith, List.isPrefixOf]
      rw [hs, joinChars_cons _ _ _ (splitOnAux_ne_nil _ _ _ _), ih]
      simp
    · have hs : splitOnAux [c] (x :: rest) cur 0 = splitOnAux [c] rest (x :: cur) 0 := by
        simp [splitOnAux, startsWith, List.isPrefixOf, hx]
      rw [hs, ih]
      simp

/-- Splitting on a character the join of pieces that do not contain it gives
the pieces back. -/
theorem splitOnAux_joinChars (c : Char) (pieces : List (List Char)) (hne : pieces ≠ [])
    (hfree : ∀ a ∈ pieces, c ∉ a) :
    splitOnAux [c] (joinChars [c] pieces) [] 0 = pieces := by
  induction pieces with
  | nil => exact absurd rfl hne
  | cons a rest ih =>
    have ha : c ∉ a := hfree a (List.mem_cons_self _ _)
    cases rest with
    | nil =>
      have h := splitOnAux_no_separator c a ha []
      simpa [joinChars] using h
    | cons b more =>
      have h := splitOnAux_separator c a (joinChars [c] (b :: more)) ha []
      have hj : joinChars [c] (a :: b :: more) = a ++ c :: joinChars [c] (b :: more) := by
        simp [joinChars]
      rw [hj, h, ih (List.cons_ne_nil _ _) (fun x hx => hfree x (List.mem_cons_of_mem _ hx))]
      simp

/-- Claim C15: for a descriptor `name:a0,a1,...,an` whose name is an own
property of the registry without a colon and whose arguments contain no comma,
`parseTransformation` returns what the registry entry of that name returns
when applied, with the extractor as receiver, to exactly the strings `a0`, ...,
`an` in that order; colons inside the arguments are kept. -/
theorem parseTransformation_factory (H : Host Node) (name : String) (args : List String)
    (entry : ThisArg → List (Val Node) → Except Err (Val Node))
    (hentry : (transformations H).lookup name = some entry)
    (hname : ':' ∉ name.data) (hargs : ∀ a ∈ args, ',' ∉ a.data) (hne : args ≠ []) :
    parseTransformation H (name ++ ":" ++ ",".intercalate args)
      = entry .extractor (args.map .str) := by
  have hd : (name ++ ":" ++ ",".intercalate args).data
      = name.data ++ ':' :: joinChars [','] (args.map String.data) := by
    simp [String.data_append, intercalate_data]
  have hsplit : splitAll [':'] (name ++ ":" ++ ",".intercalate args).data
      = name.data :: splitOnAux [':'] (joinChars [','] (args.map String.data)) [] 0 := by
    rw [hd]
    have h := splitOnAux_separator ':' name.data (joinChars [','] (args.map String.data))
      hname []
    simpa [splitAll] using h
  have hrem : (":".intercalate
        ((splitOnAux [':'] (joinChars [','] (args.map String.data)) [] 0).map String.mk)).data
      = joinChars [','] (args.map String.data) := by
    rw [intercalate_data, List.map_map]
    have hid : (String.data ∘ String.mk) = (id : List Char → List Char) := rfl
    rw [hid, List.map_id]
    have h := joinChars_splitOnAux ':' (joinChars [','] (args.map String.data)) []
    simpa using h
  have hargs2 : (splitAll [','] (joinChars [','] (args.map String.data))).map String.mk = args := by
    have h := splitOnAux_joinChars ',' (args.map String.data) (by simpa using hne)
      (by
        intro a ha
        obtain ⟨b, hb, hba⟩ := List.mem_map.mp ha
        subst hba
        exact hargs b hb)
    have h2 : splitAll [','] (joinChars [','] (args.map String.data)) = args.map String.data := by
      simpa [splitAll] using h
    rw [h2, List.map_map]
    have hid : (String.mk ∘ String.data) = (id : String → String) := rfl
    rw [hid, List.map_id]
  simp only [parseTransformation, hsplit, List.map_cons, List.headD_cons, List.tail_cons, hrem,
    hargs2, hentry]

/-- Witness for `parseTransformation_factory`: the descriptor
`replace:/a+/g,b` invokes `replace` with the strings `/a+/g` and `b`. -/
theorem parseTransformation_factory_witness :
    parseTransformation (exampleHost []) ("replace" ++ ":" ++ ",".intercalate ["/a+/g", "b"])
      = transformations.replace (exampleHost []) (.str "/a+/g") (.str "b")
    ∧ "replace" ++ ":" ++ ",".intercalate ["/a+/g", "b"] = "replace:/a+/g,b" :=
  ⟨parseTransformation_factory (exampleHost []) "replace" ["/a+/g", "b"]
      (fun _ args => transformations.replace (exampleHost []) (argAt args 0) (argAt args 1))
      rfl (by decide) (by decide) (by decide),
    by decide⟩

/-- Claim C18, evaluated on the code: two fields whose selectors,
`hasOwnProperty` and `p`, match nothing.  The naive evaluation gives both
fields the value null.  In `extract` the first result is stored in the memo
under the key `hasOwnProperty` and hides the method of that name, so the lookup
for the second field raises a TypeError; the field `b` alone is extracted to
null, so its outcome depends on the other field. -/
theorem extract_memo_not_transparent (H : Host Node) (rootNode : Node)
    (hown : H.querySelector rootNode "hasOwnProperty" = .ok none)
    (hp : H.querySelector rootNode "p" = .ok none) :
    extractNaive H rootNode
        [("a", ⟨none, some "hasOwnProperty", none⟩), ("b", ⟨none, some "p", none⟩)]
      = .ok [("a", .null), ("b", .null)]
    ∧ extract H rootNode
        [("a", ⟨none, some "hasOwnProperty", none⟩), ("b", ⟨none, some "p", none⟩)]
      = .error (.typeError "memoizedSelections.hasOwnProperty is not a function")
    ∧ extract H rootNode [("b", ⟨none, some "p", none⟩)] = .ok [("b", .null)] := by
  refine ⟨?_, ?_, ?_⟩
  · simp [extractNaive, naiveField, naiveSelect, filterObject, filterLoop, ownCheck, conditionHolds,
      assignProperty, setOwn, mapObject, mapLoop, hown, hp]
  · simp [extract, extractRun, filterObject, filterLoop, ownCheck, conditionHolds,
      assignProperty, setOwn, mapObject, mapLoop, extractFromDOM, select, memoized,
      Memo.hasOwnProperty, Memo.set, Memo.get, hown]
  · simp [extract, extractRun, filterObject, filterLoop, ownCheck, conditionHolds,
      assignProperty, setOwn, mapObject, mapLoop, extractFromDOM, select, memoized,
      Memo.hasOwnProperty, Memo.set, Memo.get, hp, List.lookup]

/-- Witness for `extract_memo_not_transparent`: the empty example document. -/
theorem extract_memo_not_transparent_witness :
    (exampleHost []).querySelector 0 "hasOwnProperty" = .ok none
    ∧ extractNaive (exampleHost []) 0
        [("a", ⟨none, some "hasOwnProperty", none⟩), ("b", ⟨none, some "p", none⟩)]
      = .ok [("a", .null), ("b", .null)]
    ∧ extract (exampleHost []) 0
        [("a", ⟨none, some "hasOwnProperty", none⟩), ("b", ⟨none, some "p", none⟩)]
      = .error (.typeError "memoizedSelections.hasOwnProperty is not a function") :=
  have h := extract_memo_not_transparent (exampleHost []) 0 rfl rfl
  ⟨rfl, h.1, h.2.1⟩

/-- A key that is not among the properties is found right after it is
appended. -/
theorem lookup_append_fresh {α : Type} (l : List (String × α)) (k : String) (v : α)
    (hfresh : l.any (fun p => decide (p.1 = k)) = false) :
    (l ++ [(k, v)]).lookup k = some v := by
  induction l with
  | nil => simp [List.lookup]
  | cons p rest ih =>
    simp only [List.any_cons, Bool.or_eq_false_iff, decide_eq_false_iff_not] at hfresh
    have hne : (k == p.1) = false := by
      simpa using fun h : k = p.1 => hfresh.1 h.symm
    simp only [List.cons_append, List.lookup, hne]
    exact ih hfresh.2

/-- A key that is among the properties is found, with a value stored under
it. -/
theorem lookup_of_any {α : Type} (l : List (String × α)) (k : String)
    (hany : l.any (fun p => decide (p.1 = k)) = true) :
    ∃ v, l.lookup k = some v ∧ (k, v) ∈ l := by
  induction l with
  | nil => simp at hany
  | cons p rest ih =>
    obtain ⟨k1, v1⟩ := p
    by_cases hk : k = k1
    · subst hk
      exact ⟨v1, by simp [List.lookup], List.mem_cons_self _ _⟩
    · have hne : (k == k1) = false := by simpa using hk
      have hrest : rest.any (fun p => decide (p.1 = k)) = true := by
        simp only [List.any_cons, Bool.or_eq_true, decide_eq_true_eq] at hany
        rcases hany with h | h
        · exact absurd h.symm hk
        · exact h
      obtain ⟨v, hv, hmem⟩ := ih hrest
      exact ⟨v, by simp [List.lookup, hne, hv], List.mem_cons_of_mem _ hmem⟩

/-- With a sound memo and a selector other than `__proto__` and
`hasOwnProperty`, the memo step returns what a fresh query returns and keeps
the memo sound. -/
theorem memoized_eq_query (H : Host Node) (rootNode : Node) (s : String)
    (st : ExtractState Node) (hst : MemoSound H rootNode st)
    (hproto : s ≠ "__proto__") (hown : s ≠ "hasOwnProperty") :
    ∃ st1, memoized H rootNode s st
        = ((match H.querySelector rootNode s with
            | .error e => .error e
            | .ok (some n) => .ok (.node n)
            | .ok none => .ok .null), st1)
      ∧ ((∃ e, H.querySelector rootNode s = .error e) ∨ MemoSound H rootNode st1) := by
  obtain ⟨hp, hall⟩ := hst
  have hnone : st.memoizedSelections.own.any (fun p => decide (p.1 = "hasOwnProperty")) = false := by
    rw [List.any_eq_false]
    intro p hp1
    simpa using (hall p hp1).1
  have hhas : st.memoizedSelections.hasOwnProperty s
      = .ok (st.memoizedSelections.own.any (fun p => decide (p.1 = s))) := by
    simp only [Memo.hasOwnProperty, hnone, hp]
    rfl
  unfold memoized
  rw [hhas]
  cases hany : st.memoizedSelections.own.any (fun p => decide (p.1 = s)) with
  | true =>
    obtain ⟨v, hv, hmem⟩ := lookup_of_any _ s hany
    have hget : Memo.get H st.memoizedSelections s = v := by simp [Memo.get, hv]
    refine ⟨st, ?_, Or.inr ⟨hp, hall⟩⟩
    simp only [hget]
    rcases (hall (s, v) hmem).2.2 with ⟨n, hq, hvn⟩ | ⟨hq, hvn⟩
    · simp only [hq]; rw [show v = Val.node n from hvn]
    · simp only [hq]; rw [show v = Val.null from hvn]
  | false =>
    simp only []
    cases hq : H.querySelector rootNode s with
    | error e => exact ⟨_, rfl, Or.inl ⟨e, rfl⟩⟩
    | ok found =>
      have hset : ∀ v : Val Node, Memo.set H st.memoizedSelections s v
          = .ok { st.memoizedSelections with own := st.memoizedSelections.own ++ [(s, v)] } := by
        intro v
        simp only [Memo.set, hany, hproto, hp]
        simp
      cases found with
      | none =>
        simp only [hset]
        refine ⟨⟨⟨st.memoizedSelections.own ++ [(s, .null)], st.memoizedSelections.proto⟩,
          st.queries ++ [s]⟩, ?_, Or.inr ⟨hp, ?_⟩⟩
        · simp [Memo.get, lookup_append_fresh _ s _ hany]
        · intro p hp1
          rcases List.mem_append.mp hp1 with h | h
          · exact hall p h
          · simp only [List.mem_singleton] at h
            subst h
            exact ⟨hown, hproto, Or.inr ⟨hq, rfl⟩⟩
      | some n =>
        simp only [hset]
        refine ⟨⟨⟨st.memoizedSelections.own ++ [(s, .node n)], st.memoizedSelections.proto⟩,
          st.queries ++ [s]⟩, ?_, Or.inr ⟨hp, ?_⟩⟩
        · simp [Memo.get, lookup_append_fresh _ s _ hany]
        · intro p hp1
          rcases List.mem_append.mp hp1 with h | h
          · exact hall p h
          · simp only [List.mem_singleton] at h
            subst h
            exact ⟨hown, hproto, Or.inl ⟨n, hq, rfl⟩⟩

/-- With a sound memo the selection of `extractFromDOM` is the naive
selection, and the memo stays sound. -/
theorem select_eq_naive (H : Host Node) (rootNode : Node) (selector : Option String)
    (st : ExtractState Node) (hst : MemoSound H rootNode st)
    (hsel : ∀ s, selector = some s → s ≠ "__proto__" ∧ s ≠ "hasOwnProperty") :
    ∃ st1, select H rootNode selector st = (naiveSelect H rootNode selector, st1)
      ∧ ((∃ e, naiveSelect H rootNode selector = .error e) ∨ MemoSound H rootNode st1) := by
  cases selector with
  | none => exact ⟨st, rfl, Or.inr hst⟩
  | some s =>
    by_cases he : s = ""
    · refine ⟨st, ?_, Or.inr hst⟩
      simp [select, naiveSelect, he]
    · obtain ⟨st1, h1, h2⟩ := memoized_eq_query H rootNode s st hst (hsel s rfl).1 (hsel s rfl).2
      refine ⟨st1, ?_, ?_⟩
      · simp only [select, naiveSelect, if_neg he, h1]
      · rcases h2 with ⟨e, hq⟩ | h2
        · refine Or.inl ⟨e, ?_⟩
          simp [naiveSelect, he, hq]
        · exact Or.inr h2

/-- With a sound memo the callback `extractFromDOM` returns the value of the
naive evaluation, and the memo stays sound. -/
theorem extractFromDOM_eq_naive (H : Host Node) (rootNode : Node) (key : String)
    (spec : FieldSpec Node) (st : ExtractState Node) (hst : MemoSound H rootNode st)
    (hsel : ∀ s, spec.selector = some s → s ≠ "__proto__" ∧ s ≠ "hasOwnProperty") :
    ∃ st1, extractFromDOM H rootNode key spec st = (naiveField H rootNode spec, st1)
      ∧ ((∃ e, naiveField H rootNode spec = .error e) ∨ MemoSound H rootNode st1) := by
  obtain ⟨st1, h1, h2⟩ := select_eq_naive H rootNode spec.selector st hst hsel
  refine ⟨st1, ?_, ?_⟩
  · simp only [extractFromDOM, naiveField, h1]
    cases naiveSelect H rootNode spec.selector with
    | error e => rfl
    | ok output =>
      simp only []
      cases spec.transformations <;> rfl
  · rcases h2 with ⟨e, hq⟩ | h2
    · refine Or.inl ⟨e, ?_⟩
      simp [naiveField, hq]
    · exact Or.inr h2

/-- From a sound memo the loop of `mapObject` gives the same result with the
callback of `extract` as with the naive evaluation of each field. -/
theorem mapLoop_eq_naive (H : Host Node) (rootNode : Node)
    (object : List (String × FieldSpec Node)) :
    ∀ (l : List (String × FieldSpec Node)) (acc : List (String × Val Node))
      (st : ExtractState Node), MemoSound H rootNode st →
      (∀ p ∈ l, ∀ s, p.2.selector = some s → s ≠ "__proto__" ∧ s ≠ "hasOwnProperty") →
      (mapLoop object (extractFromDOM H rootNode) l acc st).1
        = (mapLoop object (fun _ spec (u : Unit) => (naiveField H rootNode spec, u)) l acc ()).1 := by
  intro l
  induction l with
  | nil => intro acc st _ _; rfl
  | cons p rest ih =>
    intro acc st hst hsel
    obtain ⟨k, v⟩ := p
    simp only [mapLoop]
    cases ownCheck object with
    | error e => rfl
    | ok b =>
      simp only []
      obtain ⟨st1, h1, h2⟩ := extractFromDOM_eq_naive H rootNode k v st hst
        (hsel (k, v) (List.mem_cons_self _ _))
      rw [h1]
      cases hn : naiveField H rootNode v with
      | error e => rfl
      | ok w =>
        simp only []
        rcases h2 with ⟨e, he⟩ | h2
        · rw [hn] at he; simp at he
        · exact ih _ st1 h2 (fun p hp => hsel p (List.mem_cons_of_mem _ hp))

/-- Every property after `setOwn` was there before or is the new one. -/
theorem setOwn_mem {α : Type} (props : List (String × α)) (key : String) (v : α)
    (p : String × α) (hp : p ∈ setOwn props key v) : p ∈ props ∨ p = (key, v) := by
  unfold setOwn at hp
  split at hp
  · obtain ⟨q, hq, hqp⟩ := List.mem_map.mp hp
    by_cases hk : q.1 = key
    · rw [if_pos hk] at hqp
      exact Or.inr (by rw [← hqp, hk])
    · rw [if_neg hk] at hqp
      exact Or.inl (hqp ▸ hq)
  · rcases List.mem_append.mp hp with h | h
    · exact Or.inl h
    · exact Or.inr (by simpa using h)

/-- Every property of the result of `filterObject`'s loop comes from the
accumulator or from the properties visited. -/
theorem filterLoop_mem {α : Type} (object : List (String × α))
    (func : String → α → Except Err Bool) :
    ∀ (l acc r : List (String × α)), filterLoop object func l acc = .ok r →
      ∀ p ∈ r, p ∈ acc ∨ p ∈ l := by
  intro l
  induction l with
  | nil =>
    intro acc r h p hp
    simp only [filterLoop, Except.ok.injEq] at h
    exact Or.inl (h ▸ hp)
  | cons q rest ih =>
    intro acc r h p hp
    obtain ⟨k, v⟩ := q
    simp only [filterLoop] at h
    cases hoc : ownCheck object with
    | error e => rw [hoc] at h; simp at h
    | ok b =>
      rw [hoc] at h
      simp only [] at h
      cases hf : func k v with
      | error e => rw [hf] at h; simp at h
      | ok c =>
        rw [hf] at h
        cases c with
        | false =>
          rcases ih acc r h p hp with h1 | h1
          · exact Or.inl h1
          · exact Or.inr (List.mem_cons_of_mem _ h1)
        | true =>
          rcases ih _ r h p hp with h1 | h1
          · unfold assignProperty at h1
            split at h1
            · exact Or.inl h1
            · rcases setOwn_mem _ _ _ _ h1 with h2 | h2
              · exact Or.inl h2
              · exact Or.inr (h2 ▸ List.mem_cons_self _ _)
          · exact Or.inr (List.mem_cons_of_mem _ h1)

/-- Memoization is transparent away from two selectors: for a configuration
in which no field has the selector `__proto__` or `hasOwnProperty`, `extract`
returns what the naive evaluation returns, a mapping or an exception. -/
theorem extract_eq_naive (H : Host Node) (rootNode : Node)
    (config : List (String × FieldSpec Node))
    (hsel : ∀ p ∈ config, ∀ s, p.2.selector = some s → s ≠ "__proto__" ∧ s ≠ "hasOwnProperty") :
    extract H rootNode config = extractNaive H rootNode config := by
  unfold extract extractRun extractNaive
  cases hf : filterObject config conditionHolds with
  | error e => rfl
  | ok filteredConfig =>
    simp only [mapObject]
    apply mapLoop_eq_naive
    · exact ⟨rfl, fun p hp => absurd hp (List.not_mem_nil p)⟩
    · intro p hp
      rcases filterLoop_mem _ _ _ _ _ hf p hp with h | h
      · exact absurd h (List.not_mem_nil p)
      · exact hsel p h

/-- A closure of a node transformation returns null on null. -/
theorem callFn_onNode_null (H : Host Node) (f : Fn Node) (hf : f.onNode = true) :
    callFn H f .null = .ok .null := by
  cases f <;> first | rfl | simp [Fn.onNode] at hf

/-- A chain made only of node transformations maps null to null. -/
theorem node_chain_null (H : Host Node) (chain : List (Descriptor Node))
    (hchain : ∀ d ∈ chain, NodeStep H d) :
    applyTransformations H chain .null = .ok .null := by
  induction chain with
  | nil => rfl
  | cons d rest ih =>
    have hrest := ih (fun d hd => hchain d (List.mem_cons_of_mem _ hd))
    obtain ⟨s, hd, hs⟩ := hchain d (List.mem_cons_self _ _)
    subst hd
    rcases hs with hbare | ⟨hlookup, hcolon, f, hparse, hf⟩
    · have hstep : applyTransformations H (.str s :: rest) .null
          = applyTransformations H rest .null := by
        simp only [List.mem_cons, List.mem_singleton, List.not_mem_nil, or_false] at hbare
        rcases hbare with h | h | h <;> subst h <;> rfl
      rw [hstep, hrest]
    · simp only [applyTransformations, Descriptor.key, hlookup, indexOfColon, hcolon, hparse,
        call, callFn_onNode_null H f hf, hrest]

/-- In the naive evaluation a field whose selector matches nothing and whose
chain is made only of node transformations has the value null. -/
theorem naiveField_missing (H : Host Node) (rootNode : Node) (spec : FieldSpec Node)
    (s : String) (chain : List (Descriptor Node)) (hs : spec.selector = some s) (hne : s ≠ "")
    (hnone : H.querySelector rootNode s = .ok none)
    (hspec : spec.transformations = some chain) (hchain : ∀ d ∈ chain, NodeStep H d) :
    naiveField H rootNode spec = .ok .null := by
  simp only [naiveField, naiveSelect, hs, if_neg hne, hnone, hspec, node_chain_null H chain hchain]

end
end DomExtractor
